import Mathlib

/-!
Verification of the Flashforge Cura plugin core (FlashforgeDevice.py):
the G-code text normalization, the .gx binary container encoder, and the
TCP transfer state machine, embedded shallowly over lists of characters
and natural-number bytes.
-/

set_option maxHeartbeats 1000000
set_option maxRecDepth 10000

namespace Flashforge

/-! ## Basic text and byte helpers -/

/-- Byte values of an ASCII-clean string: the bytes produced by a
successful Python str.encode("ascii").  The validity check of the encode
call lives in pyEncodeAscii. -/
def asciiBytes (s : List Char) : List Nat := s.map Char.toNat

/-- Python str.encode("ascii"): the byte values when every character is
below code point 128, and none — a UnicodeEncodeError — otherwise. -/
def pyEncodeAscii (s : List Char) : Option (List Nat) :=
  if s.all (fun c => c.toNat < 128) then some (asciiBytes s) else none

/-- Little-endian byte layout of an in-range value on a given number of
bytes, the bytes produced by a successful Python
int.to_bytes(len, "little").  The range check of the to_bytes call lives
in toBytesLE?. -/
def toBytesLE (len n : Nat) : List Nat := (List.range len).map (fun i => n / 256 ^ i % 256)

/-- Python int.to_bytes(len, "little"): the little-endian bytes when the
value is nonnegative and fits in len bytes, and none — an OverflowError —
otherwise. -/
def toBytesLE? (len : Nat) (n : Int) : Option (List Nat) :=
  if 0 ≤ n ∧ n < (256 : Int) ^ len then some (toBytesLE len n.toNat) else none

/-- Worker for splitlines: accumulates the current line in reverse. -/
def splitlinesGo : List Char → List Char → List (List Char)
  | [], acc => if acc.isEmpty then [] else [acc.reverse]
  | '\r' :: '\n' :: rest, acc => acc.reverse :: splitlinesGo rest []
  | '\n' :: rest, acc => acc.reverse :: splitlinesGo rest []
  | '\r' :: rest, acc => acc.reverse :: splitlinesGo rest []
  | c :: rest, acc => splitlinesGo rest (c :: acc)

/-- Python str.splitlines restricted to the line endings that occur in the
printer protocol (LF, CR, CR LF): a trailing newline produces no empty
final line. -/
def splitlines (s : List Char) : List (List Char) := splitlinesGo s []

/-- Substring test, Python operator in on strings. -/
def hasSub (pat : List Char) : List Char → Bool
  | [] => pat.isEmpty
  | c :: cs => pat.isPrefixOf (c :: cs) || hasSub pat cs

/-- Maximal leading run of decimal digits together with the remainder,
the semantics of a greedy regex d+ at the head of the input. -/
def takeDigits : List Char → List Char × List Char
  | [] => ([], [])
  | c :: cs =>
    if c.isDigit then (c :: (takeDigits cs).1, (takeDigits cs).2) else ([], c :: cs)

/-- Numeric value of a digit string, Python int on a matched d+ group. -/
def digitsToNat (l : List Char) : Nat := l.foldl (fun n c => 10 * n + (c.toNat - 48)) 0

/-! ## The three regex substitutions of formatGCode

The substitutions at FlashforgeDevice.py lines 207, 210 and 213 are
re.sub applications.  Each pattern here is deterministic: the greedy
quantifiers never need backtracking because a digit run cannot be
shortened to let a non-digit literal match a digit.  A match attempt at
one position is a structural prefix test; the driver scans left to right
and resumes after the consumed text, exactly as re.sub does. -/

/-- Optional fractional part: the regex group (?:\.\d+)? consumes a dot
followed by a maximal digit run when present. -/
def skipFrac : List Char → List Char
  | c :: d :: rest => if c = '.' ∧ d.isDigit then (takeDigits (d :: rest)).2 else c :: d :: rest
  | l => l

/-- Optional extruder index: the regex group (?: T\d)? consumes a space,
a T and one digit when present. -/
def skipTIdx : List Char → List Char
  | c :: d :: e :: rest => if c = ' ' ∧ d = 'T' ∧ e.isDigit then rest else c :: d :: e :: rest
  | l => l

/-- Match attempt at the head of the input for the temperature pattern
(M1(?:40|04) S\d+)(?:\.\d+)?(?: T\d)? with replacement group1 plus a
space and T0 (line 207).  Returns the replacement text and the input
remaining after the consumed match. -/
def try1 : List Char → Option (List Char × List Char)
  | c0 :: c1 :: a :: b :: c4 :: c5 :: rest =>
    if c0 = 'M' ∧ c1 = '1' ∧ c4 = ' ' ∧ c5 = 'S' ∧ (a = '4' ∧ b = '0' ∨ a = '0' ∧ b = '4') then
      match takeDigits rest with
      | ([], _) => none
      | (d :: ds, r1) =>
        some ('M' :: '1' :: a :: b :: ' ' :: 'S' :: ((d :: ds) ++ [' ', 'T', '0']),
          skipTIdx (skipFrac r1))
    else none
  | _ => none

/-- Match attempt at the head of the input for the fan-speed pattern
(M106 S\d+)\.\d+ with replacement group1 (line 210). -/
def try2 : List Char → Option (List Char × List Char)
  | c0 :: c1 :: c2 :: c3 :: c4 :: c5 :: rest =>
    if c0 = 'M' ∧ c1 = '1' ∧ c2 = '0' ∧ c3 = '6' ∧ c4 = ' ' ∧ c5 = 'S' then
      match takeDigits rest with
      | ([], _) => none
      | (d :: ds, r1) =>
        match r1 with
        | '.' :: r2 =>
          match takeDigits r2 with
          | ([], _) => none
          | (_ :: _, r3) => some ('M' :: '1' :: '0' :: '6' :: ' ' :: 'S' :: (d :: ds), r3)
        | _ => none
    else none
  | _ => none

/-- Fuel-driven global substitution driver: at each position the match
attempt is tried; on success the replacement is emitted and scanning
resumes after the consumed text, otherwise one character is copied.
The fuel equals the input length at the top entry point, which is enough
for every rule that consumes at least one character per match. -/
def substAux (t : List Char → Option (List Char × List Char)) : Nat → List Char → List Char
  | _, [] => []
  | 0, l => l
  | f + 1, c :: cs =>
    match t (c :: cs) with
    | some (r, rest) => r ++ substAux t f rest
    | none => c :: substAux t f cs

/-- Global regex substitution over a text, Python re.sub for the
anchored-free patterns modelled by the match attempt t. -/
def subst (t : List Char → Option (List Char × List Char)) (l : List Char) : List Char :=
  substAux t l.length l

/-- Substitution re.sub(r"^G0 (.*)", r"G1 \1", text) at line 213: with no
MULTILINE flag the anchor matches only at the start of the whole text,
and the captured group is reinserted unchanged, so the effect is to turn
a leading G0-space into G1-space. -/
def subG0 : List Char → List Char
  | c0 :: c1 :: c2 :: rest =>
    if c0 = 'G' ∧ c1 = '0' ∧ c2 = ' ' then 'G' :: '1' :: ' ' :: rest
    else c0 :: c1 :: c2 :: rest
  | l => l

/-- The three-step text normalization of formatGCode, lines 205-213:
temperature commands, then fan speeds, then the leading G0. -/
def normalize (l : List Char) : List Char := subG0 (subst try2 (subst try1 l))

/-! ## Metadata extraction from G-code comments (lines 221-260)

Each field is read by re.search inside its own try/except; a missing or
unparsable value leaves the field at zero. -/

/-- First position where the literal key is followed by at least one
digit; returns the value of the maximal digit run, the semantics of
re.search(key + r"(\d+)") followed by int. -/
def findNumAfter (key : List Char) : List Char → Option Nat
  | [] => none
  | c :: cs =>
    if key.isPrefixOf (c :: cs) then
      match takeDigits (List.drop key.length (c :: cs)) with
      | ([], _) => findNumAfter key cs
      | (d :: ds, _) => some (digitsToNat (d :: ds))
    else findNumAfter key cs

/-- First position where the literal key is followed by at least one
digit and then the literal suffix; the semantics of patterns such as
r"M140 S(\d+) T0". -/
def findNumThen (key suf : List Char) : List Char → Option Nat
  | [] => none
  | c :: cs =>
    if key.isPrefixOf (c :: cs) then
      match takeDigits (List.drop key.length (c :: cs)) with
      | ([], _) => findNumThen key suf cs
      | (d :: ds, r) =>
        if suf.isPrefixOf r then some (digitsToNat (d :: ds)) else findNumThen key suf cs
    else findNumThen key suf cs

/-- First capture of the pattern key + r"([\d\.]+)": the maximal run of
digits and dots after the first occurrence of the key that is followed
by at least one such character. -/
def findCapNumDot (key : List Char) : List Char → Option (List Char)
  | [] => none
  | c :: cs =>
    if key.isPrefixOf (c :: cs) then
      match (List.drop key.length (c :: cs)).takeWhile (fun x => x.isDigit || x = '.') with
      | [] => findCapNumDot key cs
      | d :: ds => some (d :: ds)
    else findCapNumDot key cs

/-- Python float applied to a capture of the class [\d\.]+: at most one
dot and at least one digit, otherwise a ValueError (modelled as none). -/
def parseFloat? (l : List Char) : Option Rat :=
  let a := l.takeWhile Char.isDigit
  let r := l.dropWhile Char.isDigit
  match r with
  | [] => if a.isEmpty then none else some (digitsToNat a)
  | '.' :: b =>
    if b.all Char.isDigit && !(a.isEmpty && b.isEmpty) then
      some ((digitsToNat a : Rat) + (digitsToNat b : Rat) / ((10 : Rat) ^ b.length))
    else none
  | _ => none

/-- printtime = int(re.search(r";TIME:(\d+)", gcode).group(1)), 0 on failure. -/
def extractTime (g : List Char) : Nat := (findNumAfter ";TIME:".data g).getD 0

/-- bedtemp = int(re.search(r"M140 S(\d+) T0", gcode).group(1)), 0 on failure. -/
def extractBed (g : List Char) : Nat := (findNumThen "M140 S".data " T0".data g).getD 0

/-- nozzletemp0 = int(re.search(r"M104 S(\d+) T0", gcode).group(1)), 0 on failure. -/
def extractNoz0 (g : List Char) : Nat := (findNumThen "M104 S".data " T0".data g).getD 0

/-- nozzletemp1 = int(re.search(r"M104 S(\d+) T1", gcode).group(1)), 0 on failure. -/
def extractNoz1 (g : List Char) : Nat := (findNumThen "M104 S".data " T1".data g).getD 0

/-- layercount = int(re.search(r";LAYER_COUNT:(\d+)", gcode).group(1)), 0 on failure. -/
def extractLayerCount (g : List Char) : Nat := (findNumAfter ";LAYER_COUNT:".data g).getD 0

/-- resolution = float(re.search(r";Layer height: ([\d\.]+)", gcode).group(1)),
0.0 when the search or the float conversion fails. -/
def extractRes (g : List Char) : Rat :=
  match findCapNumDot ";Layer height: ".data g with
  | none => 0
  | some cap => (parseFloat? cap).getD 0

/-- Python int(1000 * x) for a rational x, the scaling applied to the
material lengths (lines 228 and 287) and to the layer height (line 299):
exact truncation toward zero, negative results included.  The product is
computed on the raw fraction, which has the same value as the normalized
rational. -/
def pyIntMul1000 (q : Rat) : Int := Int.tdiv (1000 * q.num) (q.den : Int)

/-! ## The .gx container encoder (lines 262-354) -/

/-- Decimal rendering of a rational; stands in for the Python str
formatting of the float resolution in the textual trailer, whose exact
characters are outside every verified property. -/
def ratStr (q : Rat) : List Char := (toString q).data

/-- Match attempt for the per-layer progress pattern ;LAYER:\d+ of the
substitution at line 346; the replacement text is a parameter. -/
def tryLayer (rep : List Char) (l : List Char) : Option (List Char × List Char) :=
  if ";LAYER:".data.isPrefixOf l then
    match takeDigits (List.drop 7 l) with
    | ([], _) => none
    | (_ :: _, r) => some (rep, r)
  else none

/-- re.sub(r";LAYER:\d+", ";layer:" + str(resolution), gcode), line 346. -/
def subLayer (res : Rat) (g : List Char) : List Char :=
  subst (tryLayer (";layer:".data ++ ratStr res)) g

/-- ASCII metadata comment lines appended after the thumbnail,
lines 335-343. -/
def gxTrailer (name : List Char) (n0 bed : Nat) (res : Rat) (layercount : Nat) : List Char :=
  ";machine_type: Adventurer 4 Series\r\n".data
  ++ ";right_extruder_material: ".data ++ name ++ "\r\n".data
  ++ ";right_extruder_temperature: ".data ++ (Nat.repr n0).data ++ "\r\n".data
  ++ ";platform_temperature: ".data ++ (Nat.repr bed).data ++ "\r\n".data
  ++ ";layer_height: ".data ++ ratStr res ++ "\r\n".data
  ++ ";layer_count: ".data ++ (Nat.repr layercount).data ++ "\r\n".data
  ++ ";start gcode\r\n".data

/-- Magic bytes of the container, line 276: the ASCII text and a NUL. -/
def gxMagic : List Nat := asciiBytes "xgcode 1.0\n".data ++ [0]

/-- Byte assembly of the .gx container on the success path of the try
block, lines 276-350: fixed 58-byte header, thumbnail bytes verbatim,
comment trailer, then the G-code text with layer comments rewritten.
The abort conditions of the block (out-of-range to_bytes values,
non-ASCII encode inputs, missing list entries) live in mkGxcode. -/
def gxAssemble (printtime matLen0 matLen1 : Nat) (res : Rat) (bed n0 n1 layercount : Nat)
    (name : List Char) (thumb : List Nat) (g : List Char) : List Nat :=
  gxMagic
  ++ ([0, 0, 0, 0]
  ++ (toBytesLE 4 58
  ++ (toBytesLE 4 (58 + thumb.length)
  ++ (toBytesLE 4 (58 + thumb.length)
  ++ (toBytesLE 4 printtime
  ++ (toBytesLE 4 matLen0
  ++ (toBytesLE 4 matLen1
  ++ (toBytesLE 2 1
  ++ (toBytesLE 2 (pyIntMul1000 res).toNat
  ++ ([0, 0]
  ++ (toBytesLE 2 3
  ++ (toBytesLE 2 0
  ++ (toBytesLE 2 bed
  ++ (toBytesLE 2 n0
  ++ (toBytesLE 2 n1
  ++ ([254, 255]
  ++ (thumb
  ++ (asciiBytes (gxTrailer name n0 bed res layercount)
  ++ asciiBytes (subLayer res g)))))))))))))))))))

/-- Secondary filament length, lines 227-230: int(1000 *
printInfo.materialLengths[1]) with a handler that catches only
IndexError and defaults to 0.  A negative length is kept here — the
handler does not fire — and aborts the later to_bytes call at
line 293. -/
def extractLen1 (lengths : List Rat) : Int :=
  match lengths[1]? with
  | some l1 => pyIntMul1000 l1
  | none => 0

/-- Container assembly, the try block at lines 266-354: the result is
none when no thumbnail is available, or when an exception escapes the
block and is caught at line 352: an IndexError from materialLengths[0]
(line 287) or materialNames[0] (line 336), an OverflowError from a
to_bytes call on a negative or oversized value (lines 279-322), or a
UnicodeEncodeError from a non-ASCII trailer or G-code text (lines
335-350).  Every other extraction has its own handler and degrades to
zero before the block.  The steps are chained through Option.bind: the
block aborts as soon as any step raises, so only the set of failing
steps — not their order — determines the result. -/
def mkGxcode (g : List Char) (lengths : List Rat) (names : List (List Char))
    (thumb : Option (List Nat)) : Option (List Nat) :=
  match thumb with
  | none => none
  | some td =>
    Option.bind lengths[0]? fun l0 =>
    Option.bind (toBytesLE? 4 ((58 + td.length : Nat) : Int)) fun bp =>
    Option.bind (toBytesLE? 4 ((extractTime g : Nat) : Int)) fun bt =>
    Option.bind (toBytesLE? 4 (pyIntMul1000 l0)) fun bm0 =>
    Option.bind (toBytesLE? 4 (extractLen1 lengths)) fun bm1 =>
    Option.bind (toBytesLE? 2 (pyIntMul1000 (extractRes g))) fun bres =>
    Option.bind (toBytesLE? 2 ((extractBed g : Nat) : Int)) fun bbed =>
    Option.bind (toBytesLE? 2 ((extractNoz0 g : Nat) : Int)) fun bn0 =>
    Option.bind (toBytesLE? 2 ((extractNoz1 g : Nat) : Int)) fun bn1 =>
    Option.bind names[0]? fun nm =>
    Option.bind (pyEncodeAscii (gxTrailer nm (extractNoz0 g) (extractBed g)
      (extractRes g) (extractLayerCount g))) fun btr =>
    Option.bind (pyEncodeAscii (subLayer (extractRes g) g)) fun bg =>
    some (gxMagic
      ++ ([0, 0, 0, 0]
      ++ (toBytesLE 4 58
      ++ (bp ++ (bp ++ (bt ++ (bm0 ++ (bm1
      ++ (toBytesLE 2 1
      ++ (bres
      ++ ([0, 0]
      ++ (toBytesLE 2 3
      ++ (toBytesLE 2 0
      ++ (bbed ++ (bn0 ++ (bn1
      ++ ([254, 255]
      ++ (td ++ (btr ++ bg)))))))))))))))))))

/-! ## Transfer state machine (lines 107-443) -/

/-- Protocol states of CommsState, lines 107-113. -/
inductive CommsState
  | Ready
  | SendHeader
  | SendFile
  | SendFooter
  | SendStart
  | CheckStatus
deriving DecidableEq, Repr

/-- Mutable session fields of FlashforgeOutputDevice that the protocol
handlers touch: stage, accumulated response-line counter, attempt
counter, and whether a progress message is displayed. -/
structure Session where
  stage : CommsState
  responseCounter : Nat
  attempts : Nat
  hasMessage : Bool
deriving DecidableEq, Repr

/-- Observable side effects of the handlers: socket writes, user-visible
messages, Qt signal emissions and sleeps. -/
inductive Event
  | sendMessage (m : List Char)
  | sendData
  | disconnect
  | connect
  | showProgress
  | hideProgress
  | notify (m : List Char)
  | writeStarted
  | writeError
  | sleep (ms : Nat)
deriving DecidableEq, Repr

/-- Protocol command strings prepared by requestWrite, lines 194-197. -/
structure Job where
  header : List Char
  footer : List Char
  startCommand : List Char
  statusCommand : List Char
deriving DecidableEq, Repr

/-- Commands for a given upload file name and size, lines 194-197. -/
def mkJob (name : List Char) (size : Nat) : Job :=
  { header := "~M28 ".data ++ (Nat.repr size).data ++ " 0:/user/".data ++ name ++ "\r\n".data
    footer := "~M29\r\n".data
    startCommand := "~M23 0:/user/".data ++ name ++ "\r\n".data
    statusCommand := "~M119\r\n".data }

/-- reset, lines 424-428: back to Ready and hide the progress message. -/
def reset (s : Session) : Session × List Event :=
  ({ s with stage := CommsState.Ready, hasMessage := false },
   if s.hasMessage then [Event.hideProgress] else [])

/-- startTransfer, lines 359-370: bump the attempt counter, show a fresh
progress message, enter SendHeader and send the header command. -/
def startTransfer (j : Job) (s : Session) : Session × List Event :=
  ({ s with attempts := s.attempts + 1, stage := CommsState.SendHeader, hasMessage := true },
   [Event.showProgress, Event.sendMessage j.header])

/-- Index-out-of-range failure of splitResponse[2] at lines 406-409. -/
inductive ProtoErr
  | indexError
deriving DecidableEq, Repr

/-- onResponse, lines 377-415: split the incoming chunk into lines, add
their count to the accumulated counter, and act when the state-specific
threshold is met.  In CheckStatus the third line of the current chunk is
inspected, which raises IndexError when that chunk has fewer than three
lines. -/
def onResponse (j : Job) (s : Session) (chunk : List Char) :
    Except ProtoErr (Session × List Event) :=
  let lines := splitlines chunk
  let s1 : Session := { s with responseCounter := s.responseCounter + lines.length }
  match s1.stage with
  | CommsState.SendHeader =>
    if 3 ≤ s1.responseCounter then
      Except.ok ({ s1 with responseCounter := 0, stage := CommsState.SendFile },
        [Event.sendData])
    else Except.ok (s1, [])
  | CommsState.SendFooter =>
    if 3 ≤ s1.responseCounter then
      Except.ok ({ s1 with responseCounter := 0, stage := CommsState.SendStart },
        [Event.sendMessage j.startCommand])
    else Except.ok (s1, [])
  | CommsState.SendStart =>
    if 4 ≤ s1.responseCounter then
      Except.ok ({ s1 with responseCounter := 0, stage := CommsState.CheckStatus },
        [Event.sleep 1000, Event.sendMessage j.statusCommand])
    else Except.ok (s1, [])
  | CommsState.CheckStatus =>
    if 8 ≤ s1.responseCounter then
      let s2 : Session := { s1 with responseCounter := 0 }
      match lines[2]? with
      | none => Except.error ProtoErr.indexError
      | some l3 =>
        if hasSub "BUILDING_FROM_SD".data l3 then
          let p := reset s2
          Except.ok (p.1, p.2 ++ [Event.disconnect])
        else if hasSub "PAUSED".data l3 then
          Except.ok (s2, [Event.sleep 5000, Event.sendMessage j.statusCommand])
        else
          let p := reset s2
          if p.1.attempts < 10 then
            let q := startTransfer j p.1
            Except.ok (q.1, p.2 ++ q.2)
          else Except.ok (p.1, p.2)
    else Except.ok (s1, [])
  | _ => Except.ok (s1, [])

/-- Single quote character, used by the Python repr of an error string. -/
def sq : Char := Char.ofNat 39

/-- Python repr of an error string without escape-worthy characters,
as interpolated at line 436. -/
def pyRepr (err : List Char) : List Char := sq :: err ++ [sq]

/-- Notification text of line 436. -/
def netErrText (err : List Char) : List Char :=
  "There was a network error: ".data ++ pyRepr err

/-- onNetworkError, lines 430-443: hide any progress message, show one
notification carrying the error text, emit writeError and return the
stage to Ready.  The connection is not touched. -/
def onNetworkError (s : Session) (err : List Char) : Session × List Event :=
  ({ s with stage := CommsState.Ready, hasMessage := false },
   (if s.hasMessage then [Event.hideProgress] else [])
     ++ [Event.notify (netErrText err), Event.writeError])

/-! ## requestWrite (lines 161-203) -/

/-- External collaborators of requestWrite: the serialized scene G-code,
job name, optional file name, print information and thumbnail
availability, and whether the G-code writer succeeded. -/
structure WriteEnv where
  gcode : List Char
  jobName : List Char
  fileName : Option (List Char)
  materialLengths : List Rat
  materialNames : List (List Char)
  thumb : Option (List Nat)
  writerOk : Bool

/-- Exceptions escaping requestWrite: the DeviceBusyError raised at
line 164 while a session is active, and the UnicodeEncodeError raised at
line 191 — outside every try/except — when the fallback encode meets a
non-ASCII character in the normalized G-code text. -/
inductive DevError
  | deviceBusy
  | unicodeEncodeError
deriving DecidableEq, Repr

/-- Upload artifacts prepared by requestWrite before connecting. -/
structure Prepared where
  postData : List Nat
  fileName : List Char
  job : Job
deriving DecidableEq, Repr

/-- Python Path(name).name: the component after the last slash. -/
def baseName (l : List Char) : List Char :=
  l.foldl (fun acc c => if c = '/' then [] else acc ++ [c]) []

/-- file_name.replace("DNX_", "", 1): remove the first occurrence. -/
def stripDNX : List Char → List Char
  | [] => []
  | 'D' :: 'N' :: 'X' :: '_' :: rest => rest
  | c :: cs => c :: stripDNX cs

/-- requestWrite, lines 161-203: reject with DeviceBusyError when the
stage is not Ready, before any side effect; otherwise normalize the
G-code, attempt container assembly, pick the payload and the matching
file extension (gx for the container, gcode for the raw-text fallback)
and connect.  The fallback encode at line 191 is outside every
try/except, so a non-ASCII normalized text raises UnicodeEncodeError
out of the request after writeStarted (line 167), the possible
writeError (line 174) and the attempt-counter reset (line 186), but
before the connect (line 203). -/
def requestWrite (env : WriteEnv) (s : Session) :
    Session × List Event × Except DevError Prepared :=
  if s.stage = CommsState.Ready then
    let g := normalize env.gcode
    let base :=
      match env.fileName with
      | some n => baseName n
      | none => env.jobName ++ ['.']
    let preEvents := [Event.writeStarted] ++ (if env.writerOk then [] else [Event.writeError])
    match mkGxcode g env.materialLengths env.materialNames env.thumb with
    | some bytes =>
      let name := stripDNX base ++ '.' :: "gx".data
      ({ s with attempts := 0 }, preEvents ++ [Event.connect],
       Except.ok { postData := bytes, fileName := name, job := mkJob name bytes.length })
    | none =>
      match pyEncodeAscii g with
      | some raw =>
        let name := stripDNX base ++ '.' :: "gcode".data
        ({ s with attempts := 0 }, preEvents ++ [Event.connect],
         Except.ok { postData := raw, fileName := name, job := mkJob name raw.length })
      | none =>
        ({ s with attempts := 0 }, preEvents, Except.error DevError.unicodeEncodeError)
  else (s, [], Except.error DevError.deviceBusy)

/-- Write environment with no thumbnail, used to exercise the fallback. -/
def envNoThumb : WriteEnv :=
  { gcode := "G28\nG0 X1\n".data, jobName := "job".data, fileName := none,
    materialLengths := [], materialNames := [], thumb := none, writerOk := true }

/-- Protocol command set used for concrete runs of the state machine. -/
def jobX : Job := mkJob "test.gx".data 100

/-- Recognizer for user-visible notification events. -/
def isNotify : Event → Bool
  | Event.notify _ => true
  | _ => false

/-- Head-is-a-digit test on a character list. -/
def headDigit : List Char → Bool
  | c :: _ => c.isDigit
  | [] => false

/-- A substitution rule shrinks when the remainder after a match at
c :: cs is no longer than cs: every pattern consumes a character. -/
def Shrink (t : List Char → Option (List Char × List Char)) : Prop :=
  ∀ c cs r rest, t (c :: cs) = some (r, rest) → rest.length ≤ cs.length

/-- Every replacement the rule can emit starts with the letter M. -/
def RepHeadM (t : List Char → Option (List Char × List Char)) : Prop :=
  ∀ l r rest, t l = some (r, rest) → ∃ u, r = 'M' :: u

/-- Every match of the rule starts at a letter M of the input. -/
def InHeadM (t : List Char → Option (List Char × List Char)) : Prop :=
  ∀ l r rest, t l = some (r, rest) → ∃ u, l = 'M' :: u

/-- Dot-then-digit test for the start of a character list. -/
def startsDotDigit : List Char → Bool
  | c :: d :: _ => c == '.' && d.isDigit
  | _ => false

/-- Fuel-driven scan checking that no fan-speed match of the text is
immediately followed by a further dot and digit. -/
def good2Aux : Nat → List Char → Bool
  | _, [] => true
  | 0, _ => true
  | f + 1, c :: cs =>
    match try2 (c :: cs) with
    | some (_, rest) => !startsDotDigit rest && good2Aux f rest
    | none => good2Aux f cs

/-- Good2 l: no fan-speed command of the text carries a fractional part
that is immediately followed by another dot-and-digit group; under this
condition the fan-speed substitution is idempotent. -/
def Good2 (l : List Char) : Bool := good2Aux l.length l

/-- A temperature command M140 or M104 (selected by the two digits a b)
with value digits D and a textual tail: the shapes rewritten by the
substitution at line 207. -/
def tempCmd (a b : Char) (D tail : List Char) : List Char :=
  'M' :: '1' :: a :: b :: ' ' :: 'S' :: (D ++ tail)

/-! ## Container layout -/

theorem toBytesLE_length (k n : Nat) : (toBytesLE k n).length = k := by
  simp [toBytesLE]

theorem drop_chunk {α : Type} (c A : List α) {R : List α} (o k o2 : Nat)
    (h : c.drop o = A ++ R) (hk : A.length = k) (ho : o + k = o2) :
    (c.drop o).take k = A ∧ c.drop o2 = R := by
  constructor
  · rw [h]; exact List.take_left' hk
  · have h2 : c.drop o2 = (c.drop o).drop k := by rw [List.drop_drop, ho]
    rw [h2, h]; exact List.drop_left' hk

/-- Field-by-field layout of the assembled container: every fixed-offset
field of the 58-byte header holds exactly the bytes written for it, and
the thumbnail follows verbatim at offset 0x3A. -/
theorem gx_layout (pt m0 m1 : Nat) (res : Rat) (bed n0 n1 lc : Nat)
    (nm : List Char) (thumb : List Nat) (g : List Char) :
    (gxAssemble pt m0 m1 res bed n0 n1 lc nm thumb g).take 12 = gxMagic ∧
    ((gxAssemble pt m0 m1 res bed n0 n1 lc nm thumb g).drop 12).take 4 = [0, 0, 0, 0] ∧
    ((gxAssemble pt m0 m1 res bed n0 n1 lc nm thumb g).drop 16).take 4 = toBytesLE 4 58 ∧
    ((gxAssemble pt m0 m1 res bed n0 n1 lc nm thumb g).drop 20).take 4
      = toBytesLE 4 (58 + thumb.length) ∧
    ((gxAssemble pt m0 m1 res bed n0 n1 lc nm thumb g).drop 24).take 4
      = toBytesLE 4 (58 + thumb.length) ∧
    ((gxAssemble pt m0 m1 res bed n0 n1 lc nm thumb g).drop 28).take 4 = toBytesLE 4 pt ∧
    ((gxAssemble pt m0 m1 res bed n0 n1 lc nm thumb g).drop 32).take 4 = toBytesLE 4 m0 ∧
    ((gxAssemble pt m0 m1 res bed n0 n1 lc nm thumb g).drop 36).take 4 = toBytesLE 4 m1 ∧
    ((gxAssemble pt m0 m1 res bed n0 n1 lc nm thumb g).drop 40).take 2 = toBytesLE 2 1 ∧
    ((gxAssemble pt m0 m1 res bed n0 n1 lc nm thumb g).drop 42).take 2
      = toBytesLE 2 (pyIntMul1000 res).toNat ∧
    ((gxAssemble pt m0 m1 res bed n0 n1 lc nm thumb g).drop 44).take 2 = [0, 0] ∧
    ((gxAssemble pt m0 m1 res bed n0 n1 lc nm thumb g).drop 46).take 2 = toBytesLE 2 3 ∧
    ((gxAssemble pt m0 m1 res bed n0 n1 lc nm thumb g).drop 48).take 2 = toBytesLE 2 0 ∧
    ((gxAssemble pt m0 m1 res bed n0 n1 lc nm thumb g).drop 50).take 2 = toBytesLE 2 bed ∧
    ((gxAssemble pt m0 m1 res bed n0 n1 lc nm thumb g).drop 52).take 2 = toBytesLE 2 n0 ∧
    ((gxAssemble pt m0 m1 res bed n0 n1 lc nm thumb g).drop 54).take 2 = toBytesLE 2 n1 ∧
    ((gxAssemble pt m0 m1 res bed n0 n1 lc nm thumb g).drop 56).take 2 = [254, 255] ∧
    ((gxAssemble pt m0 m1 res bed n0 n1 lc nm thumb g).drop 58).take thumb.length = thumb := by
  have h0 : (gxAssemble pt m0 m1 res bed n0 n1 lc nm thumb g).drop 0
      = gxAssemble pt m0 m1 res bed n0 n1 lc nm thumb g := List.drop_zero _
  unfold gxAssemble at h0
  have s0 := drop_chunk _ gxMagic 0 12 12 h0 (by decide) (by norm_num)
  have s1 := drop_chunk _ [0, 0, 0, 0] 12 4 16 s0.2 (by decide) (by norm_num)
  have s2 := drop_chunk _ (toBytesLE 4 58) 16 4 20 s1.2 (toBytesLE_length 4 58) (by norm_num)
  have s3 := drop_chunk _ (toBytesLE 4 (58 + thumb.length)) 20 4 24 s2.2
    (toBytesLE_length 4 _) (by norm_num)
  have s4 := drop_chunk _ (toBytesLE 4 (58 + thumb.length)) 24 4 28 s3.2
    (toBytesLE_length 4 _) (by norm_num)
  have s5 := drop_chunk _ (toBytesLE 4 pt) 28 4 32 s4.2 (toBytesLE_length 4 _) (by norm_num)
  have s6 := drop_chunk _ (toBytesLE 4 m0) 32 4 36 s5.2 (toBytesLE_length 4 _) (by norm_num)
  have s7 := drop_chunk _ (toBytesLE 4 m1) 36 4 40 s6.2 (toBytesLE_length 4 _) (by norm_num)
  have s8 := drop_chunk _ (toBytesLE 2 1) 40 2 42 s7.2 (toBytesLE_length 2 _) (by norm_num)
  have s9 := drop_chunk _ (toBytesLE 2 (pyIntMul1000 res).toNat) 42 2 44 s8.2
    (toBytesLE_length 2 _) (by norm_num)
  have s10 := drop_chunk _ [0, 0] 44 2 46 s9.2 (by decide) (by norm_num)
  have s11 := drop_chunk _ (toBytesLE 2 3) 46 2 48 s10.2 (toBytesLE_length 2 _) (by norm_num)
  have s12 := drop_chunk _ (toBytesLE 2 0) 48 2 50 s11.2 (toBytesLE_length 2 _) (by norm_num)
  have s13 := drop_chunk _ (toBytesLE 2 bed) 50 2 52 s12.2 (toBytesLE_length 2 _) (by norm_num)
  have s14 := drop_chunk _ (toBytesLE 2 n0) 52 2 54 s13.2 (toBytesLE_length 2 _) (by norm_num)
  have s15 := drop_chunk _ (toBytesLE 2 n1) 54 2 56 s14.2 (toBytesLE_length 2 _) (by norm_num)
  have s16 := drop_chunk _ [254, 255] 56 2 58 s15.2 (by decide) (by norm_num)
  have s17 := drop_chunk _ thumb 58 thumb.length (58 + thumb.length) s16.2 rfl rfl
  have t0 := s0.1
  rw [List.drop_zero] at t0
  exact ⟨t0, s1.1, s2.1, s3.1, s4.1, s5.1, s6.1, s7.1, s8.1, s9.1, s10.1,
    s11.1, s12.1, s13.1, s14.1, s15.1, s16.1, s17.1⟩

/-- C1: for every G-code text, material name and thumbnail of size N,
the container assembled from print time 600 s, filament lengths 1200 mm
and 0 mm, layer height 0.2 mm, layer count 50, bed 60 and nozzles
210 and 0 starts with the 12-byte magic xgcode 1.0 newline NUL, then
4 zero bytes, the little-endian thumbnail pointer 58, the little-endian
G-code pointer 58 + N twice, and carries at the fixed header offsets
print time 600, filament lengths 1200 and 0, extruder-type flag 1,
layer height 200 micron, shell count 3, print speed 0, the three
temperatures, the 0xFFFE constant at offset 0x38, and the thumbnail
bytes verbatim at offset 0x3A. -/
theorem c1_container_layout (nm : List Char) (thumb : List Nat) (g : List Char) :
    (gxAssemble 600 1200 0 (1/5) 60 210 0 50 nm thumb g).take 12
      = [120, 103, 99, 111, 100, 101, 32, 49, 46, 48, 10, 0] ∧
    ((gxAssemble 600 1200 0 (1/5) 60 210 0 50 nm thumb g).drop 12).take 4 = [0, 0, 0, 0] ∧
    ((gxAssemble 600 1200 0 (1/5) 60 210 0 50 nm thumb g).drop 16).take 4 = [58, 0, 0, 0] ∧
    ((gxAssemble 600 1200 0 (1/5) 60 210 0 50 nm thumb g).drop 20).take 4
      = toBytesLE 4 (58 + thumb.length) ∧
    ((gxAssemble 600 1200 0 (1/5) 60 210 0 50 nm thumb g).drop 24).take 4
      = toBytesLE 4 (58 + thumb.length) ∧
    ((gxAssemble 600 1200 0 (1/5) 60 210 0 50 nm thumb g).drop 28).take 4 = [88, 2, 0, 0] ∧
    ((gxAssemble 600 1200 0 (1/5) 60 210 0 50 nm thumb g).drop 32).take 4 = [176, 4, 0, 0] ∧
    ((gxAssemble 600 1200 0 (1/5) 60 210 0 50 nm thumb g).drop 36).take 4 = [0, 0, 0, 0] ∧
    ((gxAssemble 600 1200 0 (1/5) 60 210 0 50 nm thumb g).drop 40).take 2 = [1, 0] ∧
    ((gxAssemble 600 1200 0 (1/5) 60 210 0 50 nm thumb g).drop 42).take 2 = [200, 0] ∧
    ((gxAssemble 600 1200 0 (1/5) 60 210 0 50 nm thumb g).drop 44).take 2 = [0, 0] ∧
    ((gxAssemble 600 1200 0 (1/5) 60 210 0 50 nm thumb g).drop 46).take 2 = [3, 0] ∧
    ((gxAssemble 600 1200 0 (1/5) 60 210 0 50 nm thumb g).drop 48).take 2 = [0, 0] ∧
    ((gxAssemble 600 1200 0 (1/5) 60 210 0 50 nm thumb g).drop 50).take 2 = [60, 0] ∧
    ((gxAssemble 600 1200 0 (1/5) 60 210 0 50 nm thumb g).drop 52).take 2 = [210, 0] ∧
    ((gxAssemble 600 1200 0 (1/5) 60 210 0 50 nm thumb g).drop 54).take 2 = [0, 0] ∧
    ((gxAssemble 600 1200 0 (1/5) 60 210 0 50 nm thumb g).drop 56).take 2 = [254, 255] ∧
    ((gxAssemble 600 1200 0 (1/5) 60 210 0 50 nm thumb g).drop 58).take thumb.length
      = thumb := by
  obtain ⟨h1, h2, h3, h4, h5, h6, h7, h8, h9, h10, h11, h12, h13, h14, h15, h16, h17, h18⟩ :=
    gx_layout 600 1200 0 (1/5) 60 210 0 50 nm thumb g
  have hnum : (1 / 5 : Rat).num = 1 := by norm_num
  have hden : (1 / 5 : Rat).den = 5 := by norm_num
  have hmic : (pyIntMul1000 (1 / 5 : Rat)).toNat = 200 := by
    simp only [pyIntMul1000]; rw [hnum, hden]; decide
  rw [hmic] at h10
  exact ⟨by rw [h1]; decide, h2, by rw [h3]; decide, h4, h5, by rw [h6]; decide,
    by rw [h7]; decide, by rw [h8]; decide, by rw [h9]; decide, by rw [h10]; decide,
    h11, by rw [h12]; decide, by rw [h13]; decide, by rw [h14]; decide,
    by rw [h15]; decide, by rw [h16]; decide, h17, h18⟩

/-! ## Container fallback and zero defaults -/

theorem toBytesLE?_natCast (k n : Nat) (h : n < 256 ^ k) :
    toBytesLE? k ((n : Nat) : Int) = some (toBytesLE k n) := by
  rw [toBytesLE?, if_pos]
  · rw [Int.toNat_natCast]
  · exact ⟨Int.natCast_nonneg n, by exact_mod_cast h⟩

theorem all_drop {p : Char → Bool} (n : Nat) (l : List Char) (h : l.all p = true) :
    (l.drop n).all p = true := by
  rw [List.all_eq_true] at h ⊢
  intro c hc
  exact h c (List.drop_subset _ _ hc)

theorem takeDigits_snd_all {p : Char → Bool} : ∀ (l : List Char), l.all p = true →
    ((takeDigits l).2).all p = true := by
  intro l
  induction l with
  | nil => intro h; exact h
  | cons c cs ih =>
    intro h
    simp only [takeDigits]
    split
    · exact ih (by
        rw [List.all_cons, Bool.and_eq_true] at h
        exact h.2)
    · exact h

/-- A text substitution whose rule only ever emits character-wise good
replacements and suffix remainders preserves a character-wise invariant,
here ASCII cleanliness. -/
theorem substAux_all {p : Char → Bool} {t : List Char → Option (List Char × List Char)}
    (ht : ∀ l r rest, t l = some (r, rest) → l.all p = true →
      r.all p = true ∧ rest.all p = true) :
    ∀ (f : Nat) (l : List Char), l.all p = true → (substAux t f l).all p = true := by
  intro f
  induction f with
  | zero =>
    intro l h
    cases l with
    | nil => simp [substAux]
    | cons c cs => simpa [substAux] using h
  | succ f ih =>
    intro l h
    cases l with
    | nil => simp [substAux]
    | cons c cs =>
      cases hm : t (c :: cs) with
      | none =>
        simp only [substAux, hm]
        rw [List.all_cons, Bool.and_eq_true] at h ⊢
        exact ⟨h.1, ih cs h.2⟩
      | some pr =>
        obtain ⟨r, rest⟩ := pr
        obtain ⟨hr, hrest⟩ := ht (c :: cs) r rest hm h
        simp only [substAux, hm]
        rw [List.all_append, Bool.and_eq_true]
        exact ⟨hr, ih rest hrest⟩

theorem tryLayer_all {p : Char → Bool} {rep : List Char} (hrep : rep.all p = true) :
    ∀ l r rest, tryLayer rep l = some (r, rest) → l.all p = true →
      r.all p = true ∧ rest.all p = true := by
  intro l r rest hsome hl
  rw [tryLayer] at hsome
  by_cases hpre : (";LAYER:".data).isPrefixOf l
  · rw [if_pos hpre] at hsome
    rcases htd : takeDigits (List.drop 7 l) with ⟨ds, r2⟩
    rw [htd] at hsome
    cases ds with
    | nil => simp at hsome
    | cons d ds2 =>
      simp only [Option.some.injEq, Prod.mk.injEq] at hsome
      obtain ⟨h1, h2⟩ := hsome
      subst h1; subst h2
      refine ⟨hrep, ?_⟩
      have hs := takeDigits_snd_all (List.drop 7 l) (all_drop 7 l hl)
      rw [htd] at hs
      exact hs
  · rw [if_neg hpre] at hsome
    simp at hsome

theorem subLayer_all {p : Char → Bool} (res : Rat) (g : List Char)
    (hrep : ((";layer:".data ++ ratStr res)).all p = true) (hg : g.all p = true) :
    (subLayer res g).all p = true :=
  substAux_all (tryLayer_all hrep) g.length g hg

theorem mkGxcode_eq_none (g : List Char) (lengths : List Rat) (names : List (List Char))
    (thumb : Option (List Nat)) (hf : thumb = none ∨ lengths = []) :
    mkGxcode g lengths names thumb = none := by
  rcases hf with h | h
  · rw [h]; rfl
  · subst h
    cases thumb with
    | none => rfl
    | some td => rfl

/-- C6 (amended): every numeric container field other than the primary
filament length — print time, secondary filament length, layer height,
layer count, bed and nozzle temperatures — is encoded as zero when its
source value is absent or fails to parse (a zero value always fits its
field, so these extraction failures never abort assembly); a missing
primary filament length instead aborts assembly (the result is the
no-container fallback), though it never raises.  The side conditions
are exactly what the rest of the try block needs: an in-range primary
length, a small thumbnail, and an ASCII material name and text. -/
theorem c6_zero_defaults (g : List Char) (l0 : Rat) (nm : List Char) (t : List Nat)
    (h1 : findNumAfter ";TIME:".data g = none)
    (h2 : findNumThen "M140 S".data " T0".data g = none)
    (h3 : findNumThen "M104 S".data " T0".data g = none)
    (h4 : findNumThen "M104 S".data " T1".data g = none)
    (h5 : findCapNumDot ";Layer height: ".data g = none ∨
      ∃ cap, findCapNumDot ";Layer height: ".data g = some cap ∧ parseFloat? cap = none)
    (h6 : findNumAfter ";LAYER_COUNT:".data g = none)
    (hl0a : 0 ≤ pyIntMul1000 l0) (hl0b : pyIntMul1000 l0 < 4294967296)
    (ht : t.length + 58 < 4294967296)
    (hnm : nm.all (fun c => c.toNat < 128) = true)
    (hg : g.all (fun c => c.toNat < 128) = true) :
    (∃ c, mkGxcode g [l0] [nm] (some t) = some c ∧
      (c.drop 28).take 4 = [0, 0, 0, 0] ∧
      (c.drop 36).take 4 = [0, 0, 0, 0] ∧
      (c.drop 42).take 2 = [0, 0] ∧
      (c.drop 50).take 2 = [0, 0] ∧
      (c.drop 52).take 2 = [0, 0] ∧
      (c.drop 54).take 2 = [0, 0] ∧
      extractLayerCount g = 0) ∧
    (∀ (g2 : List Char) (names2 : List (List Char)) (t2 : List Nat),
      mkGxcode g2 [] names2 (some t2) = none) := by
  have e1 : extractTime g = 0 := by rw [extractTime, h1]; rfl
  have e2 : extractBed g = 0 := by rw [extractBed, h2]; rfl
  have e3 : extractNoz0 g = 0 := by rw [extractNoz0, h3]; rfl
  have e4 : extractNoz1 g = 0 := by rw [extractNoz1, h4]; rfl
  have e5 : extractRes g = 0 := by
    rcases h5 with h | ⟨cap, hcap, hp⟩
    · rw [extractRes, h]
    · rw [extractRes, hcap]
      show (parseFloat? cap).getD 0 = 0
      rw [hp]; rfl
  have e6 : extractLayerCount g = 0 := by rw [extractLayerCount, h6]; rfl
  have e7 : extractLen1 [l0] = 0 := rfl
  have hbp : toBytesLE? 4 ((58 + t.length : Nat) : Int) = some (toBytesLE 4 (58 + t.length)) :=
    toBytesLE?_natCast 4 (58 + t.length)
      (by have h4n : (256 : Nat) ^ 4 = 4294967296 := by norm_num
          rw [h4n]; omega)
  have hbt : toBytesLE? 4 ((extractTime g : Nat) : Int) = some (toBytesLE 4 0) := by
    rw [e1]; decide
  have hrange : 0 ≤ pyIntMul1000 l0 ∧ pyIntMul1000 l0 < (256 : Int) ^ 4 := by
    refine ⟨hl0a, ?_⟩
    have h4i : ((256 : Int) ^ 4) = 4294967296 := by norm_num
    rw [h4i]; exact hl0b
  have hbm0 : toBytesLE? 4 (pyIntMul1000 l0)
      = some (toBytesLE 4 (pyIntMul1000 l0).toNat) := by
    rw [toBytesLE?, if_pos hrange]
  have hbm1 : toBytesLE? 4 (extractLen1 [l0]) = some (toBytesLE 4 0) := by
    rw [e7]; decide
  have hbres : toBytesLE? 2 (pyIntMul1000 (extractRes g)) = some (toBytesLE 2 0) := by
    rw [e5]; decide
  have hbbed : toBytesLE? 2 ((extractBed g : Nat) : Int) = some (toBytesLE 2 0) := by
    rw [e2]; decide
  have hbn0 : toBytesLE? 2 ((extractNoz0 g : Nat) : Int) = some (toBytesLE 2 0) := by
    rw [e3]; decide
  have hbn1 : toBytesLE? 2 ((extractNoz1 g : Nat) : Int) = some (toBytesLE 2 0) := by
    rw [e4]; decide
  have htrail : (gxTrailer nm 0 0 0 0).all (fun c => c.toNat < 128) = true := by
    simp only [gxTrailer, List.all_append, Bool.and_eq_true]
    repeat' apply And.intro
    all_goals first
    | exact hnm
    | decide
  have hbtr : pyEncodeAscii (gxTrailer nm (extractNoz0 g) (extractBed g) (extractRes g)
      (extractLayerCount g)) = some (asciiBytes (gxTrailer nm 0 0 0 0)) := by
    rw [e2, e3, e5, e6, pyEncodeAscii, if_pos htrail]
  have hsub : (subLayer 0 g).all (fun c => c.toNat < 128) = true := by
    refine subLayer_all 0 g ?_ hg
    decide
  have hbg : pyEncodeAscii (subLayer (extractRes g) g)
      = some (asciiBytes (subLayer 0 g)) := by
    rw [e5, pyEncodeAscii, if_pos hsub]
  have hm : mkGxcode g [l0] [nm] (some t)
      = some (gxAssemble 0 (pyIntMul1000 l0).toNat 0 0 0 0 0 0 nm t g) := by
    simp only [mkGxcode, List.getElem?_cons_zero, hbp, hbt, hbm0, hbm1, hbres,
      hbbed, hbn0, hbn1, hbtr, hbg, Option.some_bind]
    rfl
  obtain ⟨g1, g2, g3, g4, g5, g6, g7, g8, g9, g10, g11, g12, g13, g14, g15, g16, g17, g18⟩ :=
    gx_layout 0 (pyIntMul1000 l0).toNat 0 0 0 0 0 0 nm t g
  have hmic : (pyIntMul1000 (0 : Rat)).toNat = 0 := by decide
  rw [hmic] at g10
  refine ⟨⟨gxAssemble 0 (pyIntMul1000 l0).toNat 0 0 0 0 0 0 nm t g, hm,
      by rw [g6]; decide, by rw [g8]; decide, by rw [g10]; decide,
      by rw [g14]; decide, by rw [g15]; decide, by rw [g16]; decide, e6⟩, ?_⟩
  intro g2x names2 t2
  exact mkGxcode_eq_none g2x [] names2 (some t2) (Or.inr rfl)

/-- C6 counterexample: with a thumbnail present but no primary material
length, container assembly is aborted (no container with a zero-filled
field is produced), while the same call with a primary length present
succeeds — so a missing primary filament length does abort encoding,
contrary to the claim. -/
theorem c6_counterexample :
    mkGxcode "G28\n".data [] ["PLA".data] (some [1, 2]) = none ∧
    (mkGxcode "G28\n".data [1] ["PLA".data] (some [1, 2])).isSome = true := by
  exact ⟨rfl, rfl⟩

/-- C6 witness input: a G-code text whose layer-height comment is
present but fails float parsing (two dots, the ValueError case), none of
the other metadata comments, material length 1 m, the name PLA and a
two-byte thumbnail. -/
theorem c6_zero_defaults_witness :
    (∃ c, mkGxcode ";Layer height: ..\nG28\n".data [1] ["PLA".data] (some [7, 7]) = some c ∧
      (c.drop 28).take 4 = [0, 0, 0, 0] ∧
      (c.drop 36).take 4 = [0, 0, 0, 0] ∧
      (c.drop 42).take 2 = [0, 0] ∧
      (c.drop 50).take 2 = [0, 0] ∧
      (c.drop 52).take 2 = [0, 0] ∧
      (c.drop 54).take 2 = [0, 0] ∧
      extractLayerCount ";Layer height: ..\nG28\n".data = 0) ∧
    (∀ (g2 : List Char) (names2 : List (List Char)) (t2 : List Nat),
      mkGxcode g2 [] names2 (some t2) = none) :=
  c6_zero_defaults ";Layer height: ..\nG28\n".data 1 "PLA".data [7, 7]
    (by decide) (by decide) (by decide) (by decide)
    (Or.inr ⟨"..".data, by decide, by decide⟩)
    (by decide) (by decide) (by decide) (by decide) (by decide) (by decide)

/-! ## Payload selection and busy rejection -/

/-- C5 (amended): when container assembly yields no container — no
thumbnail, or any error raised inside the try block — and the normalized
G-code text is ASCII-encodable, the write request still succeeds: the
payload is the encoded raw text and the upload file name carries the
gcode extension; when the container is produced, it is the payload and
the file name carries the gx extension.  A non-ASCII normalized text
instead makes the fallback encode at line 191 itself raise, the
counterexample to the original claim. -/
theorem c5_fallback (env : WriteEnv) (s : Session) (hs : s.stage = CommsState.Ready)
    (hgx : mkGxcode (normalize env.gcode) env.materialLengths env.materialNames env.thumb
      = none)
    (raw : List Nat) (hraw : pyEncodeAscii (normalize env.gcode) = some raw) :
    (∃ p, (requestWrite env s).2.2 = Except.ok p ∧
      p.postData = raw ∧
      ∃ base, p.fileName = base ++ '.' :: "gcode".data) ∧
    (∀ (env2 : WriteEnv) (s2 : Session) (bytes : List Nat), s2.stage = CommsState.Ready →
      mkGxcode (normalize env2.gcode) env2.materialLengths env2.materialNames env2.thumb
        = some bytes →
      ∃ p2, (requestWrite env2 s2).2.2 = Except.ok p2 ∧ p2.postData = bytes ∧
        ∃ base2, p2.fileName = base2 ++ '.' :: "gx".data) := by
  constructor
  · simp only [requestWrite, hs, reduceIte, hgx, hraw]
    exact ⟨_, rfl, rfl, _, rfl⟩
  · intro env2 s2 bytes hs2 hgx2
    simp only [requestWrite, hs2, reduceIte, hgx2]
    exact ⟨_, rfl, rfl, _, rfl⟩

/-- C5 counterexample: with no thumbnail — so the container result is
absent, the claim's antecedent — and one non-ASCII character in the
G-code text, the fallback encode at line 191, outside every try/except,
raises UnicodeEncodeError out of requestWrite: encoding does fail and no
raw-text payload is produced, contrary to the claim. -/
theorem c5_counterexample :
    (requestWrite
        { gcode := "G28 é\n".data, jobName := "job".data, fileName := none,
          materialLengths := [], materialNames := [], thumb := none, writerOk := true }
        { stage := CommsState.Ready, responseCounter := 0, attempts := 0,
          hasMessage := false }).2.2
      = Except.error DevError.unicodeEncodeError := by
  rfl

/-- C5 witness: the fallback theorem applied to a session in Ready and
an environment with ASCII text and no thumbnail. -/
theorem c5_fallback_witness :
    (∃ p, (requestWrite envNoThumb
        { stage := CommsState.Ready, responseCounter := 0, attempts := 0,
          hasMessage := false }).2.2 = Except.ok p ∧
      p.postData = asciiBytes (normalize envNoThumb.gcode) ∧
      ∃ base, p.fileName = base ++ '.' :: "gcode".data) ∧
    (∀ (env2 : WriteEnv) (s2 : Session) (bytes : List Nat), s2.stage = CommsState.Ready →
      mkGxcode (normalize env2.gcode) env2.materialLengths env2.materialNames env2.thumb
        = some bytes →
      ∃ p2, (requestWrite env2 s2).2.2 = Except.ok p2 ∧ p2.postData = bytes ∧
        ∃ base2, p2.fileName = base2 ++ '.' :: "gx".data) :=
  c5_fallback envNoThumb
    { stage := CommsState.Ready, responseCounter := 0, attempts := 0, hasMessage := false }
    rfl rfl (asciiBytes (normalize envNoThumb.gcode)) (by decide)

/-- C9: a write request issued in any state other than Ready is rejected
synchronously with the busy error, produces no events, and leaves every
session field unchanged. -/
theorem c9_busy_rejected (env : WriteEnv) (s : Session) (h : s.stage ≠ CommsState.Ready) :
    requestWrite env s = (s, [], Except.error DevError.deviceBusy) := by
  simp only [requestWrite, if_neg h]

/-- C9 witness: the busy rejection at a concrete mid-transfer session. -/
theorem c9_busy_rejected_witness :
    requestWrite envNoThumb
        { stage := CommsState.SendFile, responseCounter := 2, attempts := 3,
          hasMessage := true }
      = ({ stage := CommsState.SendFile, responseCounter := 2, attempts := 3,
            hasMessage := true }, [], Except.error DevError.deviceBusy) :=
  c9_busy_rejected envNoThumb
    { stage := CommsState.SendFile, responseCounter := 2, attempts := 3, hasMessage := true }
    (by decide)

/-! ## The CheckStatus third-line access -/

/-- C10: in CheckStatus the handler inspects the third line of the most
recent chunk only; a sequence that reaches the 8-line threshold with a
final chunk of two lines hits an out-of-bounds access, and any chunk
carrying at least three lines is safe in every state. -/
theorem c10_third_line_access :
    onResponse jobX
        { stage := CommsState.CheckStatus, responseCounter := 6, attempts := 1,
          hasMessage := true } "ok\nok\n".data
      = Except.error ProtoErr.indexError ∧
    (∀ (j : Job) (s : Session) (chunk : List Char), 3 ≤ (splitlines chunk).length →
      ∃ r, onResponse j s chunk = Except.ok r) := by
  constructor
  · rfl
  · intro j s chunk h
    have hl : (splitlines chunk)[2]? = some ((splitlines chunk)[2]) :=
      List.getElem?_eq_getElem (by omega)
    cases hst : s.stage <;>
      simp only [onResponse, hst, hl] <;>
      (repeat' split) <;>
      exact ⟨_, rfl⟩

/-- C10 witness: the out-of-bounds run together with the safety clause
applied to a three-line chunk. -/
theorem c10_third_line_access_witness :
    onResponse jobX
        { stage := CommsState.CheckStatus, responseCounter := 6, attempts := 1,
          hasMessage := true } "ok\nok\n".data
      = Except.error ProtoErr.indexError ∧
    ∃ r, onResponse jobX
        { stage := CommsState.CheckStatus, responseCounter := 5, attempts := 1,
          hasMessage := true } "a\nb\nc\n".data = Except.ok r :=
  ⟨c10_third_line_access.1,
   c10_third_line_access.2 jobX
     { stage := CommsState.CheckStatus, responseCounter := 5, attempts := 1,
       hasMessage := true } "a\nb\nc\n".data (by decide)⟩

/-! ## CheckStatus retry policy -/

/-- C2 (amended): in CheckStatus, once the accumulated line count
reaches 8, a third line containing PAUSED and not BUILDING_FROM_SD
keeps the stage at CheckStatus and re-sends the status query; a third
line containing neither token restarts from SendHeader with the attempt
counter bumped while it is below 10, and at 10 attempts it stops
retrying, hides the progress indicator and returns to Ready without
emitting any write-failure signal. -/
theorem c2_checkstatus (j : Job) (s : Session) (chunk : List Char) (l3 : List Char)
    (hst : s.stage = CommsState.CheckStatus)
    (hth : 8 ≤ s.responseCounter + (splitlines chunk).length)
    (hl3 : (splitlines chunk)[2]? = some l3) :
    (hasSub "PAUSED".data l3 = true → hasSub "BUILDING_FROM_SD".data l3 = false →
      onResponse j s chunk = Except.ok
        ({ stage := CommsState.CheckStatus, responseCounter := 0, attempts := s.attempts,
           hasMessage := s.hasMessage },
         [Event.sleep 5000, Event.sendMessage j.statusCommand])) ∧
    (hasSub "PAUSED".data l3 = false → hasSub "BUILDING_FROM_SD".data l3 = false →
      (s.attempts < 10 →
        ∃ evs, onResponse j s chunk = Except.ok
          ({ stage := CommsState.SendHeader, responseCounter := 0,
             attempts := s.attempts + 1, hasMessage := true }, evs) ∧
          Event.sendMessage j.header ∈ evs) ∧
      (10 ≤ s.attempts →
        ∃ evs, onResponse j s chunk = Except.ok
          ({ stage := CommsState.Ready, responseCounter := 0, attempts := s.attempts,
             hasMessage := false }, evs) ∧
          Event.writeError ∉ evs ∧ Event.sendMessage j.header ∉ evs)) := by
  constructor
  · intro hp hb
    simp only [onResponse, hst, hth, if_true, hl3, hb, hp, reset, startTransfer,
      Bool.false_eq_true, if_false]
  · intro hp hb
    constructor
    · intro ha
      refine ⟨(if s.hasMessage then [Event.hideProgress] else [])
        ++ [Event.showProgress, Event.sendMessage j.header], ?_, ?_⟩
      · simp only [onResponse, hst, hth, if_true, hl3, hb, hp, reset, startTransfer,
          Bool.false_eq_true, if_false, ha]
      · cases s.hasMessage <;> simp
    · intro ha
      refine ⟨if s.hasMessage then [Event.hideProgress] else [], ?_, ?_, ?_⟩
      · have hna : ¬ s.attempts < 10 := by omega
        simp only [onResponse, hst, hth, if_true, hl3, hb, hp, reset, startTransfer,
          Bool.false_eq_true, if_false, hna]
      · cases s.hasMessage <;> simp
      · cases s.hasMessage <;> simp

/-- C2 counterexample: at attempt counter 10 with a status line carrying
neither token the session just returns to Ready with no write-failure
event, and a third line containing both BUILDING_FROM_SD and PAUSED does
not stay in CheckStatus — two concrete runs falsifying the claim as
stated. -/
theorem c2_counterexample :
    (∃ evs, onResponse jobX
        { stage := CommsState.CheckStatus, responseCounter := 0, attempts := 10,
          hasMessage := true } "a\nb\nok\nd\ne\nf\ng\nh\n".data
      = Except.ok ({ stage := CommsState.Ready, responseCounter := 0, attempts := 10,
                     hasMessage := false }, evs) ∧ Event.writeError ∉ evs) ∧
    onResponse jobX
        { stage := CommsState.CheckStatus, responseCounter := 0, attempts := 1,
          hasMessage := true } "a\nb\nBUILDING_FROM_SD PAUSED\nd\ne\nf\ng\nh\n".data
      = Except.ok ({ stage := CommsState.Ready, responseCounter := 0, attempts := 1,
                     hasMessage := false }, [Event.hideProgress, Event.disconnect]) :=
  ⟨⟨[Event.hideProgress], rfl, by decide⟩, rfl⟩

/-- C2 witness: the amended transition behaviour at a concrete session,
with a PAUSED third line and with a plain ok third line at attempt
counters 1 and 10. -/
theorem c2_checkstatus_witness :
    (hasSub "PAUSED".data "PAUSED".data = true →
      hasSub "BUILDING_FROM_SD".data "PAUSED".data = false →
      onResponse jobX
        { stage := CommsState.CheckStatus, responseCounter := 3, attempts := 2,
          hasMessage := true } "a\nb\nPAUSED\nd\ne\n".data = Except.ok
        ({ stage := CommsState.CheckStatus, responseCounter := 0, attempts := 2,
           hasMessage := true },
         [Event.sleep 5000, Event.sendMessage jobX.statusCommand])) ∧
    (hasSub "PAUSED".data "PAUSED".data = false →
      hasSub "BUILDING_FROM_SD".data "PAUSED".data = false →
      (2 < 10 →
        ∃ evs, onResponse jobX
          { stage := CommsState.CheckStatus, responseCounter := 3, attempts := 2,
            hasMessage := true } "a\nb\nPAUSED\nd\ne\n".data = Except.ok
          ({ stage := CommsState.SendHeader, responseCounter := 0,
             attempts := 2 + 1, hasMessage := true }, evs) ∧
          Event.sendMessage jobX.header ∈ evs) ∧
      (10 ≤ 2 →
        ∃ evs, onResponse jobX
          { stage := CommsState.CheckStatus, responseCounter := 3, attempts := 2,
            hasMessage := true } "a\nb\nPAUSED\nd\ne\n".data = Except.ok
          ({ stage := CommsState.Ready, responseCounter := 0, attempts := 2,
             hasMessage := false }, evs) ∧
          Event.writeError ∉ evs ∧ Event.sendMessage jobX.header ∉ evs)) :=
  c2_checkstatus jobX
    { stage := CommsState.CheckStatus, responseCounter := 3, attempts := 2,
      hasMessage := true }
    "a\nb\nPAUSED\nd\ne\n".data "PAUSED".data rfl (by decide) (by decide)

/-! ## Network errors -/

/-- C3 (amended): a connection-level error in any protocol state
produces exactly one user-visible notification, whose text contains the
underlying error text, and resets the session to Ready; the underlying
connection is not closed by this path. -/
theorem c3_network_error (s : Session) (err : List Char) :
    (onNetworkError s err).1.stage = CommsState.Ready ∧
    ((onNetworkError s err).2.filter isNotify).length = 1 ∧
    (∀ m, Event.notify m ∈ (onNetworkError s err).2 → ∃ p q, m = p ++ err ++ q) ∧
    Event.disconnect ∉ (onNetworkError s err).2 := by
  refine ⟨rfl, ?_, ?_, ?_⟩
  · cases h : s.hasMessage <;> simp [onNetworkError, isNotify, h]
  · intro m hm
    have hmt : m = netErrText err := by
      cases h : s.hasMessage <;> rw [onNetworkError] at hm <;> simp [h] at hm <;> exact hm
    exact ⟨"There was a network error: ".data ++ [sq], [sq],
      by simp [hmt, netErrText, pyRepr]⟩
  · cases h : s.hasMessage <;> simp [onNetworkError, h]

/-- C3 counterexample: the error handler at a concrete mid-transfer
session emits no disconnect event, so the error path does not close the
connection. -/
theorem c3_counterexample :
    Event.disconnect ∉ (onNetworkError
      { stage := CommsState.SendFile, responseCounter := 0, attempts := 1,
        hasMessage := true } "boom".data).2 := by
  decide

/-! ## Substitution engine lemmas -/

theorem substAux_congr {t : List Char → Option (List Char × List Char)} (ht : Shrink t) :
    ∀ f1 f2 l, l.length ≤ f1 → l.length ≤ f2 → substAux t f1 l = substAux t f2 l := by
  intro f1
  induction f1 with
  | zero =>
    intro f2 l h1 h2
    have hl : l = [] := List.eq_nil_of_length_eq_zero (Nat.le_zero.mp h1)
    subst hl
    simp [substAux]
  | succ f ih =>
    intro f2 l h1 h2
    cases l with
    | nil => simp [substAux]
    | cons c cs =>
      cases f2 with
      | zero => simp at h2
      | succ f2 =>
        have hcs : cs.length ≤ f := by simp at h1; omega
        have hcs2 : cs.length ≤ f2 := by simp at h2; omega
        cases hm : t (c :: cs) with
        | none =>
          simp only [substAux, hm]
          rw [ih f2 cs hcs hcs2]
        | some p =>
          obtain ⟨r, rest⟩ := p
          have hle := ht c cs r rest hm
          simp only [substAux, hm]
          rw [ih f2 rest (le_trans hle hcs) (le_trans hle hcs2)]

theorem subst_cons_none {t : List Char → Option (List Char × List Char)}
    {c : Char} {cs : List Char} (h : t (c :: cs) = none) :
    subst t (c :: cs) = c :: subst t cs := by
  simp only [subst, List.length_cons, substAux, h]

theorem subst_cons_some {t : List Char → Option (List Char × List Char)} (ht : Shrink t)
    {c : Char} {cs r rest : List Char} (h : t (c :: cs) = some (r, rest)) :
    subst t (c :: cs) = r ++ subst t rest := by
  have hle := ht c cs r rest h
  simp only [subst, List.length_cons, substAux, h]
  rw [substAux_congr ht cs.length rest.length rest hle le_rfl]

theorem subst_peel {t : List Char → Option (List Char × List Char)} (ht : Shrink t)
    (hr : RepHeadM t) {xs : List Char} {ch : Char} {ys : List Char}
    (h : subst t xs = ch :: ys) (hch : ch ≠ 'M') :
    ∃ xs2, xs = ch :: xs2 ∧ ys = subst t xs2 := by
  cases xs with
  | nil => simp [subst, substAux] at h
  | cons x xs2 =>
    cases hm : t (x :: xs2) with
    | none =>
      rw [subst_cons_none hm] at h
      exact ⟨xs2, by rw [(List.cons.injEq _ _ _ _).mp h |>.1],
        ((List.cons.injEq _ _ _ _).mp h |>.2).symm⟩
    | some p =>
      obtain ⟨r, rest⟩ := p
      rw [subst_cons_some ht hm] at h
      obtain ⟨u, hu⟩ := hr _ _ _ hm
      subst hu
      exact absurd ((List.cons.injEq _ _ _ _).mp h |>.1).symm hch

theorem subst_peelRun {t : List Char → Option (List Char × List Char)} (ht : Shrink t)
    (hr : RepHeadM t) (p : List Char) (hp : ∀ c ∈ p, c ≠ 'M') :
    ∀ {xs ys : List Char}, subst t xs = p ++ ys →
      ∃ xs2, xs = p ++ xs2 ∧ ys = subst t xs2 := by
  induction p with
  | nil => intro xs ys h; exact ⟨xs, rfl, h.symm⟩
  | cons c p2 ih =>
    intro xs ys h
    rw [List.cons_append] at h
    obtain ⟨xs1, hxs1, hys1⟩ := subst_peel ht hr h (hp c (by simp))
    obtain ⟨xs2, hxs2, hys2⟩ := ih (fun d hd => hp d (by simp [hd])) hys1.symm
    exact ⟨xs2, by rw [hxs1, hxs2, List.cons_append], hys2⟩

theorem subst_append_noM {t : List Char → Option (List Char × List Char)}
    (hin : InHeadM t) (p : List Char) (hp : ∀ c ∈ p, c ≠ 'M') (y : List Char) :
    subst t (p ++ y) = p ++ subst t y := by
  induction p with
  | nil => simp
  | cons c p2 ih =>
    have hnone : t (c :: (p2 ++ y)) = none := by
      cases hm : t (c :: (p2 ++ y)) with
      | none => rfl
      | some q =>
        obtain ⟨u, hu⟩ := hin _ _ _ hm
        exact absurd ((List.cons.injEq _ _ _ _).mp hu |>.1) (hp c (by simp))
    rw [List.cons_append, subst_cons_none hnone, ih (fun d hd => hp d (by simp [hd])),
      List.cons_append]

/-! ## takeDigits and skip helpers -/

theorem takeDigits_snd_length_le : ∀ l : List Char, (takeDigits l).2.length ≤ l.length := by
  intro l
  induction l with
  | nil => simp [takeDigits]
  | cons c cs ih =>
    by_cases h : c.isDigit
    · simp only [takeDigits, h, if_true]
      exact le_trans ih (by simp)
    · simp [takeDigits, h]

theorem takeDigits_append {ds : List Char} (hds : ∀ c ∈ ds, c.isDigit = true)
    {r : List Char} (hr : headDigit r = false) : takeDigits (ds ++ r) = (ds, r) := by
  induction ds with
  | nil =>
    cases r with
    | nil => rfl
    | cons c r2 =>
      simp only [headDigit] at hr
      simp [takeDigits, hr]
  | cons d ds2 ih =>
    have hd : d.isDigit = true := hds d (by simp)
    have ih2 := ih (fun c hc => hds c (by simp [hc]))
    simp [takeDigits, hd, ih2]

theorem takeDigits_eq : ∀ {l ds r : List Char}, takeDigits l = (ds, r) →
    l = ds ++ r ∧ (∀ c ∈ ds, c.isDigit = true) ∧ headDigit r = false := by
  intro l
  induction l with
  | nil =>
    intro ds r h
    simp only [takeDigits, Prod.mk.injEq] at h
    obtain ⟨h1, h2⟩ := h
    subst h1; subst h2
    exact ⟨rfl, by simp, rfl⟩
  | cons c cs ih =>
    intro ds r h
    by_cases hd : c.isDigit
    · simp only [takeDigits, hd, if_true, Prod.mk.injEq] at h
      obtain ⟨h1, h2⟩ := h
      have heta : takeDigits cs = ((takeDigits cs).1, (takeDigits cs).2) := rfl
      obtain ⟨e1, e2, e3⟩ := ih heta
      subst h1; subst h2
      refine ⟨?_, ?_, e3⟩
      · rw [List.cons_append, ← e1]
      · intro x hx
        rcases List.mem_cons.mp hx with hh | hh
        · rw [hh]; exact hd
        · exact e2 x hh
    · simp only [takeDigits, hd, if_false, Prod.mk.injEq] at h
      rcases h with ⟨ha, hb⟩
      refine ⟨rfl, by simp, ?_⟩
      simp only [headDigit]
      exact eq_false_of_ne_true hd

theorem skipFrac_le : ∀ l : List Char, (skipFrac l).length ≤ l.length := by
  intro l
  cases l with
  | nil => simp [skipFrac]
  | cons c l2 =>
    cases l2 with
    | nil => simp [skipFrac]
    | cons d rest =>
      by_cases h : c = '.' ∧ d.isDigit
      · simp only [skipFrac, h, if_true]
        exact le_trans (takeDigits_snd_length_le (d :: rest)) (by simp)
      · simp [skipFrac, h]

theorem skipTIdx_le : ∀ l : List Char, (skipTIdx l).length ≤ l.length := by
  intro l
  cases l with
  | nil => simp [skipTIdx]
  | cons c l2 =>
    cases l2 with
    | nil => simp [skipTIdx]
    | cons d l3 =>
      cases l3 with
      | nil => simp [skipTIdx]
      | cons e rest =>
        by_cases h : c = ' ' ∧ d = 'T' ∧ e.isDigit
        · simp only [skipTIdx, h, if_true]
          simp
          omega
        · simp [skipTIdx, h]

theorem skipFrac_cons_cons_eq (c d : Char) (rest : List Char) :
    skipFrac (c :: d :: rest)
      = if c = '.' ∧ d.isDigit then (takeDigits (d :: rest)).2 else c :: d :: rest := rfl

theorem skipTIdx_cons3_eq (c d e : Char) (rest : List Char) :
    skipTIdx (c :: d :: e :: rest)
      = if c = ' ' ∧ d = 'T' ∧ e.isDigit then rest else c :: d :: e :: rest := rfl

theorem skipFrac_not_dot {c : Char} (hc : c ≠ '.') (l : List Char) :
    skipFrac (c :: l) = c :: l := by
  cases l with
  | nil => rfl
  | cons d r =>
    rw [skipFrac_cons_cons_eq, if_neg]
    intro hcon
    exact hc hcon.1

theorem skipFrac_nil : skipFrac [] = [] := rfl

theorem skipFrac_dot {f : Char} (hf : f.isDigit = true) {fs : List Char}
    (hfs : ∀ c ∈ fs, c.isDigit = true) {Y : List Char} (hY : headDigit Y = false) :
    skipFrac ('.' :: (f :: fs) ++ Y) = Y := by
  have hall : ∀ c ∈ f :: fs, c.isDigit = true := by
    intro x hx
    rcases List.mem_cons.mp hx with hh | hh
    · rw [hh]; exact hf
    · exact hfs x hh
  rw [List.cons_append, List.cons_append, skipFrac_cons_cons_eq, if_pos ⟨rfl, hf⟩,
    show f :: (fs ++ Y) = (f :: fs) ++ Y from rfl, takeDigits_append hall hY]

theorem skipTIdx_sTd {e : Char} (he : e.isDigit = true) (rest : List Char) :
    skipTIdx (' ' :: 'T' :: e :: rest) = rest := by
  rw [skipTIdx_cons3_eq, if_pos ⟨rfl, rfl, he⟩]

theorem skipTIdx_not_space {c : Char} (hc : c ≠ ' ') (l : List Char) :
    skipTIdx (c :: l) = c :: l := by
  cases l with
  | nil => rfl
  | cons d l2 =>
    cases l2 with
    | nil => rfl
    | cons e rest =>
      rw [skipTIdx_cons3_eq, if_neg]
      intro hcon
      exact hc hcon.1

theorem skipTIdx_nil : skipTIdx [] = [] := rfl

/-! ## Inversion of the temperature rule -/

theorem try1_cons_eq (c0 c1 a b c4 c5 : Char) (rest : List Char) :
    try1 (c0 :: c1 :: a :: b :: c4 :: c5 :: rest)
      = if c0 = 'M' ∧ c1 = '1' ∧ c4 = ' ' ∧ c5 = 'S' ∧ (a = '4' ∧ b = '0' ∨ a = '0' ∧ b = '4')
        then match takeDigits rest with
          | ([], _) => none
          | (d :: ds, r1) =>
            some ('M' :: '1' :: a :: b :: ' ' :: 'S' :: ((d :: ds) ++ [' ', 'T', '0']),
              skipTIdx (skipFrac r1))
        else none := rfl

theorem try1_some : ∀ {l r rest : List Char}, try1 l = some (r, rest) →
    ∃ a b D r1, (a = '4' ∧ b = '0' ∨ a = '0' ∧ b = '4') ∧ D ≠ [] ∧
      (∀ c ∈ D, c.isDigit = true) ∧ headDigit r1 = false ∧
      l = 'M' :: '1' :: a :: b :: ' ' :: 'S' :: (D ++ r1) ∧
      r = 'M' :: '1' :: a :: b :: ' ' :: 'S' :: (D ++ [' ', 'T', '0']) ∧
      rest = skipTIdx (skipFrac r1) := by
  intro l r rest h
  obtain _ | ⟨c0, l⟩ := l
  · simp [try1] at h
  obtain _ | ⟨c1, l⟩ := l
  · simp [try1] at h
  obtain _ | ⟨a, l⟩ := l
  · simp [try1] at h
  obtain _ | ⟨b, l⟩ := l
  · simp [try1] at h
  obtain _ | ⟨c4, l⟩ := l
  · simp [try1] at h
  obtain _ | ⟨c5, rest0⟩ := l
  · simp [try1] at h
  rw [try1_cons_eq] at h
  split at h
  case isFalse => simp at h
  case isTrue hcond =>
    obtain ⟨hc0, hc1, hc4, hc5, hab⟩ := hcond
    rcases htd : takeDigits rest0 with ⟨D, r1⟩
    rw [htd] at h
    cases D with
    | nil => simp at h
    | cons d ds =>
      simp only [Option.some.injEq, Prod.mk.injEq] at h
      obtain ⟨hr, hrest⟩ := h
      obtain ⟨e1, e2, e3⟩ := takeDigits_eq htd
      subst hc0; subst hc1; subst hc4; subst hc5
      exact ⟨a, b, d :: ds, r1, hab, by simp, e2, e3, by rw [e1], hr.symm, hrest.symm⟩

theorem try1_inHeadM : InHeadM try1 := by
  intro l r rest h
  obtain ⟨a, b, D, r1, _, _, _, _, hl, _, _⟩ := try1_some h
  exact ⟨_, hl⟩

theorem try1_repHeadM : RepHeadM try1 := by
  intro l r rest h
  obtain ⟨a, b, D, r1, _, _, _, _, _, hr, _⟩ := try1_some h
  exact ⟨_, hr⟩

theorem try1_shrink : Shrink try1 := by
  intro c cs r rest h
  obtain ⟨a, b, D, r1, hab, hD, hDd, hr1, hl, hr, hrest⟩ := try1_some h
  have h1 : rest.length ≤ r1.length := by
    rw [hrest]
    exact le_trans (skipTIdx_le _) (skipFrac_le _)
  have h2 : cs = '1' :: a :: b :: ' ' :: 'S' :: (D ++ r1) :=
    ((List.cons.injEq _ _ _ _).mp hl).2
  rw [h2]
  simp only [List.length_cons, List.length_append]
  omega

theorem try1_none_of_head {c : Char} (hc : c ≠ 'M') (cs : List Char) :
    try1 (c :: cs) = none := by
  cases hm : try1 (c :: cs) with
  | none => rfl
  | some p =>
    obtain ⟨r, rest⟩ := p
    obtain ⟨u, hu⟩ := try1_inHeadM _ _ _ hm
    exact absurd ((List.cons.injEq _ _ _ _).mp hu).1 hc

theorem try1_build {a b : Char} (hab : a = '4' ∧ b = '0' ∨ a = '0' ∧ b = '4')
    {d : Char} (hd : d.isDigit = true) {ds : List Char}
    (hds : ∀ c ∈ ds, c.isDigit = true) (Y : List Char) :
    try1 ('M' :: '1' :: a :: b :: ' ' :: 'S' :: ((d :: ds) ++ ' ' :: 'T' :: '0' :: Y))
      = some ('M' :: '1' :: a :: b :: ' ' :: 'S' :: ((d :: ds) ++ [' ', 'T', '0']), Y) := by
  have hall : ∀ c ∈ d :: ds, c.isDigit = true := by
    intro x hx
    rcases List.mem_cons.mp hx with hh | hh
    · rw [hh]; exact hd
    · exact hds x hh
  have htd : takeDigits ((d :: ds) ++ ' ' :: 'T' :: '0' :: Y)
      = (d :: ds, ' ' :: 'T' :: '0' :: Y) :=
    takeDigits_append hall (by rfl)
  have hsf : skipFrac (' ' :: 'T' :: '0' :: Y) = ' ' :: 'T' :: '0' :: Y :=
    skipFrac_not_dot (by decide) _
  have hst : skipTIdx (' ' :: 'T' :: '0' :: Y) = Y := skipTIdx_sTd (by decide) _
  rw [try1_cons_eq, if_pos ⟨rfl, rfl, rfl, rfl, hab⟩, htd]
  simp only [hsf, hst]

theorem subst_nil (t : List Char → Option (List Char × List Char)) : subst t [] = [] := rfl

theorem takeDigits_all {l : List Char} (hl : ∀ c ∈ l, c.isDigit = true) :
    takeDigits l = (l, []) := by
  have h := takeDigits_append hl (show headDigit [] = false from rfl)
  rwa [List.append_nil] at h

/-- Canonicalization of one whole temperature command with a given tail:
when the tail is fully consumed by the optional fraction and index
groups, the substitution rewrites the command to carry a bare T0. -/
theorem try1_full {a b : Char} (hab : a = '4' ∧ b = '0' ∨ a = '0' ∧ b = '4')
    {d : Char} (hd : d.isDigit = true) {ds : List Char}
    (hds : ∀ c ∈ ds, c.isDigit = true) {tail : List Char}
    (htail : headDigit tail = false) (hskip : skipTIdx (skipFrac tail) = []) :
    subst try1 (tempCmd a b (d :: ds) tail) = tempCmd a b (d :: ds) [' ', 'T', '0'] := by
  have hall : ∀ c ∈ d :: ds, c.isDigit = true := by
    intro x hx
    rcases List.mem_cons.mp hx with hh | hh
    · rw [hh]; exact hd
    · exact hds x hh
  have htd : takeDigits ((d :: ds) ++ tail) = (d :: ds, tail) := takeDigits_append hall htail
  have hsome : try1 (tempCmd a b (d :: ds) tail)
      = some (tempCmd a b (d :: ds) [' ', 'T', '0'], []) := by
    show try1 ('M' :: '1' :: a :: b :: ' ' :: 'S' :: ((d :: ds) ++ tail)) = _
    rw [try1_cons_eq, if_pos ⟨rfl, rfl, rfl, rfl, hab⟩, htd]
    simp only [hskip]
    rfl
  have hsome2 : try1 ('M' :: '1' :: a :: b :: ' ' :: 'S' :: ((d :: ds) ++ tail))
      = some (tempCmd a b (d :: ds) [' ', 'T', '0'], []) := hsome
  show subst try1 ('M' :: '1' :: a :: b :: ' ' :: 'S' :: ((d :: ds) ++ tail)) = _
  rw [subst_cons_some try1_shrink hsome2, subst_nil, List.append_nil]

/-- C4: evaluation of the normalization on texts with line-initial G0
rapid moves.  A G0 at the start of the whole text is rewritten to G1,
but a G0 at the start of a later line is left unchanged: the
substitution at line 213 anchors at the string start because re.sub is
called without the MULTILINE flag. -/
theorem c4_g0_first_line_only :
    normalize "G0 X1 Y2\nG0 X3\n".data = "G1 X1 Y2\nG0 X3\n".data ∧
    normalize "G1 X1\nG0 X2\n".data = "G1 X1\nG0 X2\n".data := by
  exact ⟨by decide, by decide⟩

/-- C8: every bed (M140) or primary-hotend (M104) temperature command
variant — bare, with a decimal fraction, with an explicit extruder
index, or with both — is rewritten by the temperature substitution to
the same command carrying the canonical index T0 and no fractional
part. -/
theorem c8_temp_canonical {a b : Char} (hab : a = '4' ∧ b = '0' ∨ a = '0' ∧ b = '4')
    {d : Char} (hd : d.isDigit = true) {ds : List Char}
    (hds : ∀ c ∈ ds, c.isDigit = true) {f : Char} (hf : f.isDigit = true)
    {fs : List Char} (hfs : ∀ c ∈ fs, c.isDigit = true) {e : Char} (he : e.isDigit = true) :
    subst try1 (tempCmd a b (d :: ds) []) = tempCmd a b (d :: ds) [' ', 'T', '0'] ∧
    subst try1 (tempCmd a b (d :: ds) ('.' :: f :: fs))
      = tempCmd a b (d :: ds) [' ', 'T', '0'] ∧
    subst try1 (tempCmd a b (d :: ds) [' ', 'T', e])
      = tempCmd a b (d :: ds) [' ', 'T', '0'] ∧
    subst try1 (tempCmd a b (d :: ds) ('.' :: f :: (fs ++ [' ', 'T', e])))
      = tempCmd a b (d :: ds) [' ', 'T', '0'] := by
  have hallf : ∀ c ∈ f :: fs, c.isDigit = true := by
    intro x hx
    rcases List.mem_cons.mp hx with hh | hh
    · rw [hh]; exact hf
    · exact hfs x hh
  refine ⟨try1_full hab hd hds rfl (by rw [skipFrac_nil, skipTIdx_nil]),
    try1_full hab hd hds rfl ?_, try1_full hab hd hds rfl ?_, try1_full hab hd hds rfl ?_⟩
  · have h1 : skipFrac ('.' :: f :: fs) = [] := by
      rw [skipFrac_cons_cons_eq, if_pos ⟨rfl, hf⟩, takeDigits_all hallf]
    rw [h1, skipTIdx_nil]
  · have h1 : skipFrac (' ' :: 'T' :: e :: []) = ' ' :: 'T' :: e :: [] :=
      skipFrac_not_dot (by decide) _
    rw [show ([' ', 'T', e] : List Char) = ' ' :: 'T' :: e :: [] from rfl, h1,
      skipTIdx_sTd he]
  · have h2 : takeDigits ((f :: fs) ++ [' ', 'T', e]) = (f :: fs, [' ', 'T', e]) :=
      takeDigits_append hallf rfl
    have h1 : skipFrac ('.' :: f :: (fs ++ [' ', 'T', e])) = [' ', 'T', e] := by
      rw [skipFrac_cons_cons_eq, if_pos ⟨rfl, hf⟩,
        show f :: (fs ++ [' ', 'T', e]) = (f :: fs) ++ [' ', 'T', e] from rfl, h2]
    rw [h1, show ([' ', 'T', e] : List Char) = ' ' :: 'T' :: e :: [] from rfl,
      skipTIdx_sTd he]

/-- C8 witness: the four variants of M140 S60 with fraction .5 and
index T1 all normalize to M140 S60 T0. -/
theorem c8_temp_canonical_witness :
    subst try1 (tempCmd '4' '0' ['6', '0'] []) = tempCmd '4' '0' ['6', '0'] [' ', 'T', '0'] ∧
    subst try1 (tempCmd '4' '0' ['6', '0'] ('.' :: '5' :: []))
      = tempCmd '4' '0' ['6', '0'] [' ', 'T', '0'] ∧
    subst try1 (tempCmd '4' '0' ['6', '0'] [' ', 'T', '1'])
      = tempCmd '4' '0' ['6', '0'] [' ', 'T', '0'] ∧
    subst try1 (tempCmd '4' '0' ['6', '0'] ('.' :: '5' :: ([] ++ [' ', 'T', '1'])))
      = tempCmd '4' '0' ['6', '0'] [' ', 'T', '0'] :=
  c8_temp_canonical (Or.inl ⟨rfl, rfl⟩) (by decide) (by decide) (by decide)
    (by decide) (by decide)

/-! ## Inversion of the fan-speed rule -/

theorem ne_M_of_digit {c : Char} (h : c.isDigit = true) : c ≠ 'M' := by
  intro he
  rw [he] at h
  exact absurd h (by decide)

theorem takeDigits_cons_digit {c : Char} (h : c.isDigit = true) (cs : List Char) :
    takeDigits (c :: cs) = (c :: (takeDigits cs).1, (takeDigits cs).2) := by
  simp [takeDigits, h]

theorem try2_cons_eq (c0 c1 c2 c3 c4 c5 : Char) (rest : List Char) :
    try2 (c0 :: c1 :: c2 :: c3 :: c4 :: c5 :: rest)
      = if c0 = 'M' ∧ c1 = '1' ∧ c2 = '0' ∧ c3 = '6' ∧ c4 = ' ' ∧ c5 = 'S' then
          match takeDigits rest with
          | ([], _) => none
          | (d :: ds, r1) =>
            match r1 with
            | '.' :: r2 =>
              match takeDigits r2 with
              | ([], _) => none
              | (_ :: _, r3) => some ('M' :: '1' :: '0' :: '6' :: ' ' :: 'S' :: (d :: ds), r3)
            | _ => none
        else none := rfl

theorem try2_some : ∀ {l r rest : List Char}, try2 l = some (r, rest) →
    ∃ D F, D ≠ [] ∧ (∀ c ∈ D, c.isDigit = true) ∧ F ≠ [] ∧ (∀ c ∈ F, c.isDigit = true) ∧
      headDigit rest = false ∧
      l = 'M' :: '1' :: '0' :: '6' :: ' ' :: 'S' :: (D ++ '.' :: (F ++ rest)) ∧
      r = 'M' :: '1' :: '0' :: '6' :: ' ' :: 'S' :: D := by
  intro l r rest h
  obtain _ | ⟨c0, l⟩ := l
  · simp [try2] at h
  obtain _ | ⟨c1, l⟩ := l
  · simp [try2] at h
  obtain _ | ⟨c2, l⟩ := l
  · simp [try2] at h
  obtain _ | ⟨c3, l⟩ := l
  · simp [try2] at h
  obtain _ | ⟨c4, l⟩ := l
  · simp [try2] at h
  obtain _ | ⟨c5, rest0⟩ := l
  · simp [try2] at h
  rw [try2_cons_eq] at h
  split at h
  case isFalse => simp at h
  case isTrue hcond =>
    obtain ⟨hc0, hc1, hc2, hc3, hc4, hc5⟩ := hcond
    subst hc0; subst hc1; subst hc2; subst hc3; subst hc4; subst hc5
    split at h
    next snd heq => simp at h
    next d ds r1 heq =>
      split at h
      next r2 =>
        split at h
        next snd2 heq3 => simp at h
        next f fs r3 heq3 =>
          simp only [Option.some.injEq, Prod.mk.injEq] at h
          obtain ⟨hr, hrest⟩ := h
          obtain ⟨e1, e2, e3⟩ := takeDigits_eq heq
          obtain ⟨f1, f2, f3⟩ := takeDigits_eq heq3
          subst hrest
          refine ⟨d :: ds, f :: fs, by simp, e2, by simp, f2, f3, ?_, hr.symm⟩
          rw [e1, f1]
      next hne => simp at h

theorem try2_inHeadM : InHeadM try2 := by
  intro l r rest h
  obtain ⟨D, F, _, _, _, _, _, hl, _⟩ := try2_some h
  exact ⟨_, hl⟩

theorem try2_repHeadM : RepHeadM try2 := by
  intro l r rest h
  obtain ⟨D, F, _, _, _, _, _, _, hr⟩ := try2_some h
  exact ⟨_, hr⟩

theorem try2_shrink : Shrink try2 := by
  intro c cs r rest h
  obtain ⟨D, F, hD, hDd, hF, hFd, hrest, hl, hr⟩ := try2_some h
  have h2 : cs = '1' :: '0' :: '6' :: ' ' :: 'S' :: (D ++ '.' :: (F ++ rest)) :=
    ((List.cons.injEq _ _ _ _).mp hl).2
  rw [h2]
  simp only [List.length_cons, List.length_append]
  omega

theorem try2_none_of_head {c : Char} (hc : c ≠ 'M') (cs : List Char) :
    try2 (c :: cs) = none := by
  cases hm : try2 (c :: cs) with
  | none => rfl
  | some p =>
    obtain ⟨r, rest⟩ := p
    obtain ⟨u, hu⟩ := try2_inHeadM _ _ _ hm
    exact absurd ((List.cons.injEq _ _ _ _).mp hu).1 hc

/-! ## Stability of failed match attempts under inner substitutions -/

theorem try1_none_stable {u : List Char → Option (List Char × List Char)}
    (hu : Shrink u) (hru : RepHeadM u) {c : Char} {cs : List Char}
    (h : try1 (c :: cs) = none) : try1 (c :: subst u cs) = none := by
  cases hm : try1 (c :: subst u cs) with
  | none => rfl
  | some p =>
    exfalso
    obtain ⟨r, rest⟩ := p
    obtain ⟨a, b, D, r1, hab, hD, hDd, hr1, hl, hr, hrest⟩ := try1_some hm
    rcases D with _ | ⟨d, ds⟩
    · exact hD rfl
    have hc : c = 'M' := ((List.cons.injEq _ _ _ _).mp hl).1
    have hsub : subst u cs = ['1', a, b, ' ', 'S', d] ++ (ds ++ r1) := by
      have := ((List.cons.injEq _ _ _ _).mp hl).2
      simpa using this
    have hd : d.isDigit = true := hDd d (by simp)
    have hp : ∀ x ∈ ['1', a, b, ' ', 'S', d], x ≠ 'M' := by
      intro x hx
      simp only [List.mem_cons, List.not_mem_nil, or_false] at hx
      rcases hx with hx | hx | hx | hx | hx | hx
      · rw [hx]; decide
      · rcases hab with ⟨ha, _⟩ | ⟨ha, _⟩ <;> rw [hx, ha] <;> decide
      · rcases hab with ⟨_, hb⟩ | ⟨_, hb⟩ <;> rw [hx, hb] <;> decide
      · rw [hx]; decide
      · rw [hx]; decide
      · rw [hx]; exact ne_M_of_digit hd
    obtain ⟨cs2, hcs2, -⟩ := subst_peelRun hu hru _ hp hsub
    have hmatch : try1 (c :: cs) ≠ none := by
      rw [hc, hcs2,
        show ('M' :: (['1', a, b, ' ', 'S', d] ++ cs2) : List Char)
          = 'M' :: '1' :: a :: b :: ' ' :: 'S' :: (d :: cs2) from rfl,
        try1_cons_eq, if_pos ⟨rfl, rfl, rfl, rfl, hab⟩, takeDigits_cons_digit hd]
      simp
    exact hmatch h

theorem try2_none_stable {u : List Char → Option (List Char × List Char)}
    (hu : Shrink u) (hru : RepHeadM u) {c : Char} {cs : List Char}
    (h : try2 (c :: cs) = none) : try2 (c :: subst u cs) = none := by
  cases hm : try2 (c :: subst u cs) with
  | none => rfl
  | some p =>
    exfalso
    obtain ⟨r, rest⟩ := p
    obtain ⟨D, F, hD, hDd, hF, hFd, hrest, hl, hr⟩ := try2_some hm
    rcases D with _ | ⟨d, ds⟩
    · exact hD rfl
    rcases F with _ | ⟨f, fs⟩
    · exact hF rfl
    have hc : c = 'M' := ((List.cons.injEq _ _ _ _).mp hl).1
    have hsub : subst u cs
        = (['1', '0', '6', ' ', 'S', d] ++ ds ++ '.' :: f :: fs) ++ rest := by
      have := ((List.cons.injEq _ _ _ _).mp hl).2
      simpa [List.append_assoc] using this
    have hd : d.isDigit = true := hDd d (by simp)
    have hf : f.isDigit = true := hFd f (by simp)
    have hp : ∀ x ∈ ['1', '0', '6', ' ', 'S', d] ++ ds ++ '.' :: f :: fs, x ≠ 'M' := by
      intro x hx
      simp only [List.mem_append, List.mem_cons, List.not_mem_nil, or_false] at hx
      rcases hx with ((hx | hx | hx | hx | hx | hx) | hx) | (hx | hx | hx)
      · rw [hx]; decide
      · rw [hx]; decide
      · rw [hx]; decide
      · rw [hx]; decide
      · rw [hx]; decide
      · rw [hx]; exact ne_M_of_digit hd
      · exact ne_M_of_digit (hDd x (by simp [hx]))
      · rw [hx]; decide
      · rw [hx]; exact ne_M_of_digit hf
      · exact ne_M_of_digit (hFd x (by simp [hx]))
    obtain ⟨cs2, hcs2, -⟩ := subst_peelRun hu hru _ hp hsub
    have hmatch : try2 (c :: cs) ≠ none := by
      rw [hc, hcs2,
        show ('M' :: ((['1', '0', '6', ' ', 'S', d] ++ ds ++ '.' :: f :: fs) ++ cs2)
            : List Char)
          = 'M' :: '1' :: '0' :: '6' :: ' ' :: 'S'
            :: ((d :: ds) ++ '.' :: (f :: (fs ++ cs2))) from by simp,
        try2_cons_eq, if_pos ⟨rfl, rfl, rfl, rfl, rfl, rfl⟩]
      have hallD : ∀ x ∈ d :: ds, x.isDigit = true := hDd
      have hhd : headDigit ('.' :: (f :: (fs ++ cs2))) = false := rfl
      rw [takeDigits_append hallD hhd]
      simp [takeDigits_cons_digit hf]
    exact hmatch h

/-! ## Idempotence of the temperature substitution -/

theorem subst1_replacement {a b : Char} (hab : a = '4' ∧ b = '0' ∨ a = '0' ∧ b = '4')
    {d : Char} (hd : d.isDigit = true) {ds : List Char}
    (hds : ∀ c ∈ ds, c.isDigit = true) (Z : List Char) :
    subst try1 (('M' :: '1' :: a :: b :: ' ' :: 'S' :: ((d :: ds) ++ [' ', 'T', '0'])) ++ Z)
      = ('M' :: '1' :: a :: b :: ' ' :: 'S' :: ((d :: ds) ++ [' ', 'T', '0']))
        ++ subst try1 Z := by
  have hb := try1_build hab hd hds Z
  have hshape : (('M' :: '1' :: a :: b :: ' ' :: 'S' :: ((d :: ds) ++ [' ', 'T', '0'])) ++ Z)
      = 'M' :: '1' :: a :: b :: ' ' :: 'S' :: ((d :: ds) ++ ' ' :: 'T' :: '0' :: Z) := by
    simp
  rw [hshape, subst_cons_some try1_shrink hb]

theorem fix_some1 {c : Char} {cs r rest : List Char} (h : try1 (c :: cs) = some (r, rest))
    (hfix : subst try1 (c :: cs) = c :: cs) :
    c :: cs = r ++ rest ∧ subst try1 rest = rest := by
  obtain ⟨a, b, D, r1, hab, hD, hDd, hr1, hl, hr, hrest⟩ := try1_some h
  have heq : c :: cs = r ++ subst try1 rest := by
    rw [← hfix]
    exact subst_cons_some try1_shrink h
  rw [hl, hr] at heq
  have heq2 : r1 = [' ', 'T', '0'] ++ subst try1 rest := by
    have h6 : ('M' :: '1' :: a :: b :: ' ' :: 'S' :: (D ++ r1) : List Char)
        = 'M' :: '1' :: a :: b :: ' ' :: 'S' :: (D ++ ([' ', 'T', '0'] ++ subst try1 rest)) := by
      rw [heq]
      simp [List.append_assoc]
    have h7 := (List.cons.injEq _ _ _ _).mp h6
    have h8 := (List.cons.injEq _ _ _ _).mp h7.2
    have h9 := (List.cons.injEq _ _ _ _).mp h8.2
    have h10 := (List.cons.injEq _ _ _ _).mp h9.2
    have h11 := (List.cons.injEq _ _ _ _).mp h10.2
    have h12 := (List.cons.injEq _ _ _ _).mp h11.2
    exact List.append_cancel_left h12.2
  have hrr : rest = subst try1 rest := by
    conv_lhs => rw [hrest, heq2]
    have hsf : skipFrac (' ' :: 'T' :: '0' :: subst try1 rest)
        = ' ' :: 'T' :: '0' :: subst try1 rest := skipFrac_not_dot (by decide) _
    have hst : skipTIdx (' ' :: 'T' :: '0' :: subst try1 rest) = subst try1 rest :=
      skipTIdx_sTd (by decide) _
    rw [show ([' ', 'T', '0'] ++ subst try1 rest : List Char)
      = ' ' :: 'T' :: '0' :: subst try1 rest from rfl, hsf, hst]
  constructor
  · rw [hl, hr, heq2, ← hrr]
    simp [List.append_assoc]
  · exact hrr.symm

theorem subst1_idem_aux : ∀ (n : Nat) (l : List Char), l.length ≤ n →
    subst try1 (subst try1 l) = subst try1 l := by
  intro n
  induction n with
  | zero =>
    intro l h
    have hl : l = [] := List.eq_nil_of_length_eq_zero (Nat.le_zero.mp h)
    subst hl
    rfl
  | succ n ih =>
    intro l h
    cases l with
    | nil => rfl
    | cons c cs =>
      have hcs : cs.length ≤ n := by simp at h; omega
      cases hm : try1 (c :: cs) with
      | none =>
        rw [subst_cons_none hm,
          subst_cons_none (try1_none_stable try1_shrink try1_repHeadM hm), ih cs hcs]
      | some p =>
        obtain ⟨r, rest⟩ := p
        have hrest : rest.length ≤ n := le_trans (try1_shrink c cs r rest hm) hcs
        rw [subst_cons_some try1_shrink hm]
        obtain ⟨a, b, D, r1, hab, hD, hDd, hr1, hl, hr, hrest2⟩ := try1_some hm
        rcases D with _ | ⟨d, ds⟩
        · exact absurd rfl hD
        subst hr
        rw [subst1_replacement hab (hDd d (by simp)) (fun x hx => hDd x (by simp [hx])),
          ih rest hrest]

/-- The temperature substitution is idempotent on every text. -/
theorem subst1_idem (l : List Char) : subst try1 (subst try1 l) = subst try1 l :=
  subst1_idem_aux l.length l le_rfl

/-! ## Conditional idempotence of the fan-speed substitution -/

theorem startsDotDigit_dot_head (l : List Char) :
    startsDotDigit ('.' :: l) = headDigit l := by
  cases l with
  | nil => rfl
  | cons d r => rfl

theorem startsDotDigit_ne {c : Char} (hc : c ≠ '.') (l : List Char) :
    startsDotDigit (c :: l) = false := by
  cases l with
  | nil => rfl
  | cons d r =>
    show (c == '.' && d.isDigit) = false
    rw [show (c == '.') = false from beq_eq_false_iff_ne.mpr hc]
    rfl

theorem subst_headDigit_false {u : List Char → Option (List Char × List Char)}
    (hu : Shrink u) (hru : RepHeadM u) {l : List Char}
    (h : headDigit l = false) : headDigit (subst u l) = false := by
  cases l with
  | nil => rfl
  | cons c cs =>
    cases hm : u (c :: cs) with
    | none =>
      rw [subst_cons_none hm]
      exact h
    | some p =>
      obtain ⟨r, rest⟩ := p
      rw [subst_cons_some hu hm]
      obtain ⟨u2, hu2⟩ := hru _ _ _ hm
      subst hu2
      rfl

theorem subst_startsDotDigit_false {u : List Char → Option (List Char × List Char)}
    (hu : Shrink u) (hru : RepHeadM u) {l : List Char}
    (hh : headDigit l = false) (h : startsDotDigit l = false) :
    startsDotDigit (subst u l) = false := by
  cases l with
  | nil => rfl
  | cons c cs =>
    cases hm : u (c :: cs) with
    | some p =>
      obtain ⟨r, rest⟩ := p
      rw [subst_cons_some hu hm]
      obtain ⟨u2, hu2⟩ := hru _ _ _ hm
      subst hu2
      rw [List.cons_append]
      exact startsDotDigit_ne (by decide) _
    | none =>
      rw [subst_cons_none hm]
      by_cases hc : c = '.'
      · subst hc
        rw [startsDotDigit_dot_head] at h ⊢
        exact subst_headDigit_false hu hru h
      · exact startsDotDigit_ne hc _

theorem good2Aux_congr : ∀ f1 f2 l, l.length ≤ f1 → l.length ≤ f2 →
    good2Aux f1 l = good2Aux f2 l := by
  intro f1
  induction f1 with
  | zero =>
    intro f2 l h1 h2
    have hl : l = [] := List.eq_nil_of_length_eq_zero (Nat.le_zero.mp h1)
    subst hl
    simp [good2Aux]
  | succ f ih =>
    intro f2 l h1 h2
    cases l with
    | nil => simp [good2Aux]
    | cons c cs =>
      cases f2 with
      | zero => simp at h2
      | succ f2 =>
        have hcs : cs.length ≤ f := by simp at h1; omega
        have hcs2 : cs.length ≤ f2 := by simp at h2; omega
        cases hm : try2 (c :: cs) with
        | none =>
          simp only [good2Aux, hm]
          exact ih f2 cs hcs hcs2
        | some p =>
          obtain ⟨r, rest⟩ := p
          have hle := try2_shrink c cs r rest hm
          simp only [good2Aux, hm]
          rw [ih f2 rest (le_trans hle hcs) (le_trans hle hcs2)]

theorem good2_cons_none {c : Char} {cs : List Char} (h : try2 (c :: cs) = none) :
    Good2 (c :: cs) = Good2 cs := by
  simp only [Good2, List.length_cons, good2Aux, h]

theorem good2_cons_some {c : Char} {cs r rest : List Char}
    (h : try2 (c :: cs) = some (r, rest)) :
    Good2 (c :: cs) = (!startsDotDigit rest && Good2 rest) := by
  have hle := try2_shrink c cs r rest h
  simp only [Good2, List.length_cons, good2Aux, h]
  rw [good2Aux_congr cs.length rest.length rest hle le_rfl]

theorem subst2_good_aux : ∀ (n : Nat) (l : List Char), l.length ≤ n → Good2 l = true →
    subst try2 (subst try2 l) = subst try2 l := by
  intro n
  induction n with
  | zero =>
    intro l h hg
    have hl : l = [] := List.eq_nil_of_length_eq_zero (Nat.le_zero.mp h)
    subst hl
    rfl
  | succ n ih =>
    intro l h hg
    cases l with
    | nil => rfl
    | cons c cs =>
      have hcs : cs.length ≤ n := by simp at h; omega
      cases hm : try2 (c :: cs) with
      | none =>
        have hg2 : Good2 cs = true := by
          rw [good2_cons_none hm] at hg
          exact hg
        rw [subst_cons_none hm,
          subst_cons_none (try2_none_stable try2_shrink try2_repHeadM hm), ih cs hcs hg2]
      | some p =>
        obtain ⟨r, rest⟩ := p
        have hrest : rest.length ≤ n := le_trans (try2_shrink c cs r rest hm) hcs
        have hgg : startsDotDigit rest = false ∧ Good2 rest = true := by
          rw [good2_cons_some hm] at hg
          simp only [Bool.and_eq_true, Bool.not_eq_true'] at hg
          exact hg
        obtain ⟨D, F, hD, hDd, hF, hFd, hhd, hl, hr⟩ := try2_some hm
        rcases D with _ | ⟨d, ds⟩
        · exact absurd rfl hD
        rw [subst_cons_some try2_shrink hm]
        have hZhd : headDigit (subst try2 rest) = false :=
          subst_headDigit_false try2_shrink try2_repHeadM hhd
        have hZdd : startsDotDigit (subst try2 rest) = false :=
          subst_startsDotDigit_false try2_shrink try2_repHeadM hhd hgg.1
        subst hr
        have hshape : (('M' :: '1' :: '0' :: '6' :: ' ' :: 'S' :: (d :: ds) : List Char)
            ++ subst try2 rest)
            = 'M' :: ('1' :: '0' :: '6' :: ' ' :: 'S' :: ((d :: ds) ++ subst try2 rest)) := by
          simp
        have hnone : try2 ('M' :: ('1' :: '0' :: '6' :: ' ' :: 'S'
            :: ((d :: ds) ++ subst try2 rest))) = none := by
          rw [show ('M' :: ('1' :: '0' :: '6' :: ' ' :: 'S'
              :: ((d :: ds) ++ subst try2 rest)) : List Char)
            = 'M' :: '1' :: '0' :: '6' :: ' ' :: 'S'
              :: ((d :: ds) ++ subst try2 rest) from rfl,
            try2_cons_eq, if_pos ⟨rfl, rfl, rfl, rfl, rfl, rfl⟩,
            takeDigits_append hDd hZhd]
          show (match subst try2 rest with
            | '.' :: r2 =>
              match takeDigits r2 with
              | ([], _) => none
              | (_ :: _, r3) => some ('M' :: '1' :: '0' :: '6' :: ' ' :: 'S' :: (d :: ds), r3)
            | _ => none) = none
          rcases hZ : subst try2 rest with _ | ⟨z, zs⟩
          · rfl
          · rw [hZ] at hZdd
            by_cases hz : z = '.'
            · subst hz
              show (match takeDigits zs with
                | ([], _) => none
                | (_ :: _, r3) =>
                  some ('M' :: '1' :: '0' :: '6' :: ' ' :: 'S' :: (d :: ds), r3)) = none
              rw [startsDotDigit_dot_head] at hZdd
              rcases zs with _ | ⟨w, ws⟩
              · rfl
              · have hw : w.isDigit = false := hZdd
                rw [show takeDigits (w :: ws) = ([], w :: ws) from by simp [takeDigits, hw]]
            · revert hz
              split
              · rename_i r2 heq
                intro hz
                exact (hz ((List.cons.injEq _ _ _ _).mp heq).1).elim
              · intro hz
                rfl
        have hnoM : ∀ x ∈ ('1' :: '0' :: '6' :: ' ' :: 'S' :: (d :: ds) : List Char),
            x ≠ 'M' := by
          intro x hx
          simp only [List.mem_cons] at hx
          rcases hx with hx | hx | hx | hx | hx | hx
          · rw [hx]; decide
          · rw [hx]; decide
          · rw [hx]; decide
          · rw [hx]; decide
          · rw [hx]; decide
          · exact ne_M_of_digit (hDd x (List.mem_cons.mpr hx))
        rw [hshape, subst_cons_none hnone,
          show ('1' :: '0' :: '6' :: ' ' :: 'S' :: ((d :: ds) ++ subst try2 rest) : List Char)
            = ('1' :: '0' :: '6' :: ' ' :: 'S' :: (d :: ds)) ++ subst try2 rest from by simp,
          subst_append_noM try2_inHeadM _ hnoM, ih rest hrest hgg.2]

/-- The fan-speed substitution is idempotent on texts where no match is
immediately followed by a further dot and digit. -/
theorem subst2_idem_good {l : List Char} (hg : Good2 l = true) :
    subst try2 (subst try2 l) = subst try2 l :=
  subst2_good_aux l.length l le_rfl hg

/-! ## The fan-speed substitution preserves temperature-normal forms -/

theorem fix1_subst2_aux : ∀ (n : Nat) (x : List Char), x.length ≤ n →
    subst try1 x = x → subst try1 (subst try2 x) = subst try2 x := by
  intro n
  induction n with
  | zero =>
    intro x h hfix
    have hl : x = [] := List.eq_nil_of_length_eq_zero (Nat.le_zero.mp h)
    subst hl
    rfl
  | succ n ih =>
    intro x h hfix
    cases x with
    | nil => rfl
    | cons c cs =>
      have hcs : cs.length ≤ n := by simp at h; omega
      cases h1 : try1 (c :: cs) with
      | some p =>
        obtain ⟨r, rest⟩ := p
        have hrestlen : rest.length ≤ n := le_trans (try1_shrink c cs r rest h1) hcs
        obtain ⟨hcr, hfixr⟩ := fix_some1 h1 hfix
        obtain ⟨a, b, D, r1, hab, hD, hDd, hr1, hl, hr, hrest2⟩ := try1_some h1
        rcases D with _ | ⟨d, ds⟩
        · exact absurd rfl hD
        have hd : d.isDigit = true := hDd d (by simp)
        have hds : ∀ x ∈ ds, x.isDigit = true := fun x hx => hDd x (by simp [hx])
        subst hr
        rcases hab with ⟨ha, hb⟩ | ⟨ha, hb⟩ <;> subst ha <;> subst hb
        · have hnoM : ∀ x ∈ ('1' :: '4' :: '0' :: ' ' :: 'S'
              :: ((d :: ds) ++ [' ', 'T', '0']) : List Char), x ≠ 'M' := by
            intro x hx
            simp only [List.mem_cons, List.mem_append, List.not_mem_nil, or_false] at hx
            rcases hx with hx | hx | hx | hx | hx | (hx | hx) | hx | hx | hx
            · rw [hx]; decide
            · rw [hx]; decide
            · rw [hx]; decide
            · rw [hx]; decide
            · rw [hx]; decide
            · rw [hx]; exact ne_M_of_digit hd
            · exact ne_M_of_digit (hds x hx)
            · rw [hx]; decide
            · rw [hx]; decide
            · rw [hx]; decide
          have h20 : try2 ('M' :: (('1' :: '4' :: '0' :: ' ' :: 'S'
              :: ((d :: ds) ++ [' ', 'T', '0'])) ++ rest)) = none := by
            rw [show ('M' :: (('1' :: '4' :: '0' :: ' ' :: 'S'
                :: ((d :: ds) ++ [' ', 'T', '0'])) ++ rest) : List Char)
              = 'M' :: '1' :: '4' :: '0' :: ' ' :: 'S'
                :: (((d :: ds) ++ [' ', 'T', '0']) ++ rest) from by simp,
              try2_cons_eq]
            exact if_neg (by decide)
          have hs2 : subst try2 (c :: cs)
              = ('M' :: '1' :: '4' :: '0' :: ' ' :: 'S' :: ((d :: ds) ++ [' ', 'T', '0']))
                ++ subst try2 rest := by
            rw [hcr,
              show (('M' :: '1' :: '4' :: '0' :: ' ' :: 'S'
                  :: ((d :: ds) ++ [' ', 'T', '0'])) ++ rest : List Char)
                = 'M' :: (('1' :: '4' :: '0' :: ' ' :: 'S'
                  :: ((d :: ds) ++ [' ', 'T', '0'])) ++ rest) from by simp,
              subst_cons_none h20, subst_append_noM try2_inHeadM _ hnoM]
            simp
          rw [hs2, subst1_replacement (Or.inl ⟨rfl, rfl⟩) hd hds (subst try2 rest),
            ih rest hrestlen hfixr]
        · have hnoM : ∀ x ∈ ('1' :: '0' :: '4' :: ' ' :: 'S'
              :: ((d :: ds) ++ [' ', 'T', '0']) : List Char), x ≠ 'M' := by
            intro x hx
            simp only [List.mem_cons, List.mem_append, List.not_mem_nil, or_false] at hx
            rcases hx with hx | hx | hx | hx | hx | (hx | hx) | hx | hx | hx
            · rw [hx]; decide
            · rw [hx]; decide
            · rw [hx]; decide
            · rw [hx]; decide
            · rw [hx]; decide
            · rw [hx]; exact ne_M_of_digit hd
            · exact ne_M_of_digit (hds x hx)
            · rw [hx]; decide
            · rw [hx]; decide
            · rw [hx]; decide
          have h20 : try2 ('M' :: (('1' :: '0' :: '4' :: ' ' :: 'S'
              :: ((d :: ds) ++ [' ', 'T', '0'])) ++ rest)) = none := by
            rw [show ('M' :: (('1' :: '0' :: '4' :: ' ' :: 'S'
                :: ((d :: ds) ++ [' ', 'T', '0'])) ++ rest) : List Char)
              = 'M' :: '1' :: '0' :: '4' :: ' ' :: 'S'
                :: (((d :: ds) ++ [' ', 'T', '0']) ++ rest) from by simp,
              try2_cons_eq]
            exact if_neg (by decide)
          have hs2 : subst try2 (c :: cs)
              = ('M' :: '1' :: '0' :: '4' :: ' ' :: 'S' :: ((d :: ds) ++ [' ', 'T', '0']))
                ++ subst try2 rest := by
            rw [hcr,
              show (('M' :: '1' :: '0' :: '4' :: ' ' :: 'S'
                  :: ((d :: ds) ++ [' ', 'T', '0'])) ++ rest : List Char)
                = 'M' :: (('1' :: '0' :: '4' :: ' ' :: 'S'
                  :: ((d :: ds) ++ [' ', 'T', '0'])) ++ rest) from by simp,
              subst_cons_none h20, subst_append_noM try2_inHeadM _ hnoM]
            simp
          rw [hs2, subst1_replacement (Or.inr ⟨rfl, rfl⟩) hd hds (subst try2 rest),
            ih rest hrestlen hfixr]
      | none =>
        have hfixcs : subst try1 cs = cs := by
          rw [subst_cons_none h1] at hfix
          exact ((List.cons.injEq _ _ _ _).mp hfix).2
        cases h2 : try2 (c :: cs) with
        | none =>
          rw [subst_cons_none h2,
            subst_cons_none (try1_none_stable try2_shrink try2_repHeadM h1),
            ih cs hcs hfixcs]
        | some p =>
          obtain ⟨r2, rest2⟩ := p
          have hrest2len : rest2.length ≤ n := le_trans (try2_shrink c cs r2 rest2 h2) hcs
          obtain ⟨D, F, hD, hDd, hF, hFd, hhd, hl, hr⟩ := try2_some h2
          rcases D with _ | ⟨d, ds⟩
          · exact absurd rfl hD
          rcases F with _ | ⟨f, fs⟩
          · exact absurd rfl hF
          have hd : d.isDigit = true := hDd d (by simp)
          have hf : f.isDigit = true := hFd f (by simp)
          subst hr
          have hc : c = 'M' := ((List.cons.injEq _ _ _ _).mp hl).1
          have hcs2 : cs = '1' :: '0' :: '6' :: ' ' :: 'S'
              :: ((d :: ds) ++ '.' :: ((f :: fs) ++ rest2)) :=
            ((List.cons.injEq _ _ _ _).mp hl).2
          have hnoMfull : ∀ x ∈ ('1' :: '0' :: '6' :: ' ' :: 'S'
              :: ((d :: ds) ++ '.' :: (f :: fs)) : List Char), x ≠ 'M' := by
            intro x hx
            simp only [List.mem_cons, List.mem_append, List.not_mem_nil, or_false] at hx
            rcases hx with hx | hx | hx | hx | hx | (hx | hx) | hx | hx | hx
            · rw [hx]; decide
            · rw [hx]; decide
            · rw [hx]; decide
            · rw [hx]; decide
            · rw [hx]; decide
            · rw [hx]; exact ne_M_of_digit hd
            · exact ne_M_of_digit (hDd x (by simp [hx]))
            · rw [hx]; decide
            · rw [hx]; exact ne_M_of_digit hf
            · exact ne_M_of_digit (hFd x (by simp [hx]))
          have hfixrest2 : subst try1 rest2 = rest2 := by
            have hscan : subst try1 (c :: cs)
                = 'M' :: (('1' :: '0' :: '6' :: ' ' :: 'S'
                  :: ((d :: ds) ++ '.' :: (f :: fs))) ++ subst try1 rest2) := by
              rw [subst_cons_none h1, hcs2,
                show ('1' :: '0' :: '6' :: ' ' :: 'S'
                    :: ((d :: ds) ++ '.' :: ((f :: fs) ++ rest2)) : List Char)
                  = ('1' :: '0' :: '6' :: ' ' :: 'S'
                    :: ((d :: ds) ++ '.' :: (f :: fs))) ++ rest2 from by simp,
                subst_append_noM try1_inHeadM _ hnoMfull, hc]
            have hcc : subst try1 (c :: cs) = c :: cs := hfix
            rw [hscan, hl] at hcc
            have hcc2 := ((List.cons.injEq _ _ _ _).mp hcc).2
            rw [show ('1' :: '0' :: '6' :: ' ' :: 'S'
                :: ((d :: ds) ++ '.' :: ((f :: fs) ++ rest2)) : List Char)
              = ('1' :: '0' :: '6' :: ' ' :: 'S'
                :: ((d :: ds) ++ '.' :: (f :: fs))) ++ rest2 from by simp] at hcc2
            exact List.append_cancel_left hcc2
          rw [subst_cons_some try2_shrink h2]
          have hnoMD : ∀ x ∈ ('1' :: '0' :: '6' :: ' ' :: 'S' :: (d :: ds) : List Char),
              x ≠ 'M' := by
            intro x hx
            simp only [List.mem_cons] at hx
            rcases hx with hx | hx | hx | hx | hx | hx
            · rw [hx]; decide
            · rw [hx]; decide
            · rw [hx]; decide
            · rw [hx]; decide
            · rw [hx]; decide
            · exact ne_M_of_digit (hDd x (List.mem_cons.mpr hx))
          have h10 : try1 ('M' :: (('1' :: '0' :: '6' :: ' ' :: 'S' :: (d :: ds))
              ++ subst try2 rest2)) = none := by
            rw [show ('M' :: (('1' :: '0' :: '6' :: ' ' :: 'S' :: (d :: ds))
                ++ subst try2 rest2) : List Char)
              = 'M' :: '1' :: '0' :: '6' :: ' ' :: 'S'
                :: ((d :: ds) ++ subst try2 rest2) from by simp,
              try1_cons_eq]
            exact if_neg (by decide)
          rw [show (('M' :: '1' :: '0' :: '6' :: ' ' :: 'S' :: (d :: ds) : List Char)
              ++ subst try2 rest2)
            = 'M' :: (('1' :: '0' :: '6' :: ' ' :: 'S' :: (d :: ds))
              ++ subst try2 rest2) from by simp,
            subst_cons_none h10, subst_append_noM try1_inHeadM _ hnoMD,
            ih rest2 hrest2len hfixrest2]

/-- Temperature-normal texts stay temperature-normal after the fan-speed
substitution. -/
theorem fix1_subst2 {x : List Char} (hfix : subst try1 x = x) :
    subst try1 (subst try2 x) = subst try2 x :=
  fix1_subst2_aux x.length x le_rfl hfix

/-! ## Idempotence of the whole normalization on good texts -/

theorem subG0_cons3_eq (c0 c1 c2 : Char) (rest : List Char) :
    subG0 (c0 :: c1 :: c2 :: rest)
      = if c0 = 'G' ∧ c1 = '0' ∧ c2 = ' ' then 'G' :: '1' :: ' ' :: rest
        else c0 :: c1 :: c2 :: rest := rfl

theorem subst_fixed_subG0 {t : List Char → Option (List Char × List Char)}
    (hn : ∀ (c : Char) (cs : List Char), c ≠ 'M' → t (c :: cs) = none)
    {x : List Char} (hfix : subst t x = x) : subst t (subG0 x) = subG0 x := by
  rcases x with _ | ⟨c0, _ | ⟨c1, _ | ⟨c2, r⟩⟩⟩
  · exact hfix
  · exact hfix
  · exact hfix
  · rw [subG0_cons3_eq]
    by_cases hcond : c0 = 'G' ∧ c1 = '0' ∧ c2 = ' '
    · obtain ⟨e0, e1, e2⟩ := hcond
      subst e0; subst e1; subst e2
      rw [if_pos ⟨rfl, rfl, rfl⟩]
      have e3 : subst t ('G' :: '0' :: ' ' :: r) = 'G' :: '0' :: ' ' :: subst t r := by
        rw [subst_cons_none (hn _ _ (by decide)), subst_cons_none (hn _ _ (by decide)),
          subst_cons_none (hn _ _ (by decide))]
      rw [e3] at hfix
      have hfr : subst t r = r :=
        (((List.cons.injEq _ _ _ _).mp
          (((List.cons.injEq _ _ _ _).mp
            (((List.cons.injEq _ _ _ _).mp hfix).2)).2)).2)
      rw [subst_cons_none (hn _ _ (by decide)), subst_cons_none (hn _ _ (by decide)),
        subst_cons_none (hn _ _ (by decide)), hfr]
    · rw [if_neg hcond]
      exact hfix

theorem subG0_subG0 (x : List Char) : subG0 (subG0 x) = subG0 x := by
  rcases x with _ | ⟨c0, _ | ⟨c1, _ | ⟨c2, r⟩⟩⟩
  · rfl
  · rfl
  · rfl
  · rw [subG0_cons3_eq]
    by_cases hcond : c0 = 'G' ∧ c1 = '0' ∧ c2 = ' '
    · rw [if_pos hcond, subG0_cons3_eq, if_neg]
      intro hcon
      exact absurd hcon.2.1 (by decide)
    · rw [if_neg hcond, subG0_cons3_eq, if_neg hcond]

/-- C7 (amended): for every G-code text whose temperature-normalized
form contains no fan-speed command with a doubled fractional part (no
M106 fraction immediately followed by a further dot and digit), the
three-step normalization is idempotent. -/
theorem c7_normalize_idem (t : List Char) (hg : Good2 (subst try1 t) = true) :
    normalize (normalize t) = normalize t := by
  have hx1 : subst try1 (subst try1 t) = subst try1 t := subst1_idem t
  have hx2 : subst try1 (subst try2 (subst try1 t)) = subst try2 (subst try1 t) :=
    fix1_subst2 hx1
  have hx2i : subst try2 (subst try2 (subst try1 t)) = subst try2 (subst try1 t) :=
    subst2_idem_good hg
  have h1 : subst try1 (normalize t) = normalize t :=
    subst_fixed_subG0 (fun c cs hc => try1_none_of_head hc cs) hx2
  have h2 : subst try2 (normalize t) = normalize t :=
    subst_fixed_subG0 (fun c cs hc => try2_none_of_head hc cs) hx2i
  show subG0 (subst try2 (subst try1 (normalize t))) = normalize t
  rw [h1, h2]
  exact subG0_subG0 _

/-- C7 counterexample: the normalization is not idempotent on every
text — a fan-speed command with a doubled fractional part loses one
additional fraction on the second application. -/
theorem c7_counterexample :
    normalize (normalize "M106 S255.5.5".data) ≠ normalize "M106 S255.5.5".data := by
  decide

/-- C7 witness: idempotence at a concrete text containing a temperature
command with fraction and index, a rapid move and a fan-speed command
with a single fractional part. -/
theorem c7_normalize_idem_witness :
    Good2 (subst try1 "M104 S200.5 T1\nG0 X1\nM106 S255.7\n".data) = true ∧
    normalize (normalize "M104 S200.5 T1\nG0 X1\nM106 S255.7\n".data)
      = normalize "M104 S200.5 T1\nG0 X1\nM106 S255.7\n".data :=
  ⟨by decide, c7_normalize_idem _ (by decide)⟩

end Flashforge
